import Mathlib

/-!
# goweather: area-code table, field extraction and the two HTTP handlers

A shallow embedding of `demo.go`.

Modelling conventions.

* A Go `string` is a `List Char` (`GoString`).  The separators the program
  splits on (`"\n"`, `"\r"`, `" = "`) are ASCII, so on well-formed UTF-8 text
  splitting by code point and splitting by byte agree; text that is not
  well-formed UTF-8 is outside the model.
* A Go `map[string]string` (and the `map[string]interface{}` of `getWeather`,
  whose values are all strings) is an association list with at most one entry
  per key (`GoMap`), written with `GoMap.set` and read with `GoMap.get?`.
* The three patterns of `getWeather` are terms of `Regex`, and Go's `regexp`
  is a backtracking matcher on them with Go's leftmost-first preference
  (`Regex.run`, `Regex.search`); the matcher is proved sound and complete for
  the language of a pattern (`Regex.Matches`).  The classes `\d`, `\w` and
  `\s` are the ASCII classes of Go, `.` excludes the line feed.
* The class `\p{Han}` is the table `unicode.Han` of the Go toolchain the
  program is built with; the source pins no version, so the class is a field
  of the environment (`Env.isHan`) and the theorems hold for every table.
* Library calls whose result depends on the outside world (`ioutil.ReadFile`,
  `http.Get` + `ioutil.ReadAll` + `goquery`, `ioutil.ReadAll(r.Body)`,
  `json.Unmarshal`) are fields of `Env`; every call of `ioutil.ReadFile` and
  `http.Get` is recorded in an effect trace returned next to the result.
-/

namespace GoWeather

/-- A Go string. -/
abbrev GoString := List Char

/-! ## Go maps -/

/-- A Go map with string keys and string values. -/
abbrev GoMap := List (GoString × GoString)

/-- The statement `m[k] = v`. -/
def GoMap.set (m : GoMap) (k v : GoString) : GoMap :=
  (k, v) :: m.filter (fun e => !(e.1 == k))

/-- The two-result index expression `v, ok := m[k]`. -/
def GoMap.get? : GoMap → GoString → Option GoString
  | [], _ => none
  | (k', v) :: rest, k => if k' = k then some v else GoMap.get? rest k

/-! ## `strings` -/

/-- The function `strings.HasPrefix`. -/
def HasPrefix : GoString → GoString → Bool
  | _, [] => true
  | [], _ :: _ => false
  | c :: cs, p :: ps => c == p && HasPrefix cs ps

/-- The function `strings.HasSuffix`. -/
def HasSuffix (s suffix : GoString) : Bool :=
  HasPrefix s.reverse suffix.reverse

/-- The function `strings.TrimSuffix`: `s` without the trailing `suffix`, or
`s` itself when it does not end with `suffix`. -/
def TrimSuffix (s suffix : GoString) : GoString :=
  if HasSuffix s suffix then s.take (s.length - suffix.length) else s

/-- The scan behind `strings.Split` for a non-empty separator: `cur` holds the
current piece (reversed), `skip` counts the characters of a separator
occurrence still to be passed over. -/
def splitAux (sep : GoString) : GoString → Nat → GoString → List GoString
  | [], _, cur => [cur.reverse]
  | _ :: cs, skip + 1, cur => splitAux sep cs skip cur
  | c :: cs, 0, cur =>
    if HasPrefix (c :: cs) sep then cur.reverse :: splitAux sep cs (sep.length - 1) []
    else splitAux sep cs 0 (c :: cur)

/-- The function `strings.Split` for a non-empty separator: the pieces of `s`
between the successive leftmost non-overlapping occurrences of `sep`. -/
def Split (s sep : GoString) : List GoString :=
  splitAux sep s 0 []

/-- The function `strings.Join`. -/
def Join : List GoString → GoString → GoString
  | [], _ => []
  | [a], _ => a
  | a :: b :: rest, sep => a ++ sep ++ Join (b :: rest) sep

/-! ## Effects and environment -/

deriving instance DecidableEq for Except

/-- An observable call to the outside world. -/
inductive Effect
  | readFile (filename : GoString)
  | httpGet (url : GoString)
  deriving DecidableEq, Repr

/-- What `http.Get(url)`, `ioutil.ReadAll(resp.Body)`,
`goquery.NewDocumentFromReader` and
`doc.Find("#hidden_title").AttrOr("value", "")` yield for one URL. -/
inductive FetchOutcome
  | getFailed (cause : GoString)
  | readFailed (cause : GoString)
  | parseFailed (cause : GoString)
  | document (hiddenTitle : GoString)
  deriving DecidableEq, Repr

/-- The environment of one request. -/
structure Env where
  /-- The result of `ioutil.ReadFile`: an error text or the file content. -/
  readFile : GoString → Except GoString GoString
  /-- The result of fetching and parsing one URL. -/
  httpGet : GoString → FetchOutcome
  /-- The result of `json.Unmarshal(body, &requestData)` with
  `requestData : map[string]string`. -/
  jsonUnmarshal : GoString → Except GoString GoMap
  /-- The class `\p{Han}` of `regexp`: the table `unicode.Han` of the Go
  toolchain the program is built with. -/
  isHan : Char → Bool

/-! ## `readAreaCodes` -/

/-- The body of the `for _, line := range lines` loop of `readAreaCodes`. -/
def areaCodesStep (areaCodes : GoMap) (line : GoString) : GoMap :=
  let line := TrimSuffix line "\r".toList
  let parts := Split line " = ".toList
  if parts.length = 2 then areaCodes.set (parts.getD 0 []) (parts.getD 1 []) else areaCodes

/-- The part of `readAreaCodes` after the file has been read: the table built
from the file content. -/
def parseAreaCodes (content : GoString) : GoMap :=
  (Split content "\n".toList).foldl areaCodesStep []

/-- The function `readAreaCodes`, with its effect trace. -/
def readAreaCodes (env : Env) (filename : GoString) : Except GoString GoMap × List Effect :=
  match env.readFile filename with
  | .error err => (.error err, [Effect.readFile filename])
  | .ok content => (.ok (parseAreaCodes content), [Effect.readFile filename])

/-! ## `regexp` -/

/-- The fragment of Go regular-expression syntax used by `getWeather`:
character classes, concatenation, greedy `*` and `+` on a class, greedy `?`
and numbered capture groups. -/
inductive Regex
  | cls (p : Char → Bool)
  | cat (a b : Regex)
  | star (p : Char → Bool)
  | plus (p : Char → Bool)
  | quest (a : Regex)
  | cap (i : Nat) (a : Regex)

/-- The texts of the capture groups set so far, most recent first. -/
abbrev Caps := List (Nat × GoString)

/-- The text of group `i`, the empty string when the group was never set. -/
def Caps.get : Caps → Nat → GoString
  | [], _ => []
  | (j, t) :: rest, i => if j = i then t else Caps.get rest i

/-- Greedy repetition of a class: take as many characters as possible, give
one back at a time while the continuation fails. -/
def starRun {α : Type} (p : Char → Bool) (k : GoString → Option α) : GoString → Option α
  | [] => k []
  | c :: cs =>
    if p c then
      match starRun p k cs with
      | some r => some r
      | none => k (c :: cs)
    else k (c :: cs)

/-- Backtracking matcher in the priority order of Go's leftmost-first
semantics: `run r s caps k` matches `r` against a prefix of `s` and passes the
rest of the input and the captures to `k`, trying the alternatives of `r` in
order of preference until `k` succeeds. -/
def Regex.run {α : Type} : Regex → GoString → Caps → (GoString → Caps → Option α) → Option α
  | .cls p, s, caps, k =>
    match s with
    | [] => none
    | c :: cs => if p c then k cs caps else none
  | .cat a b, s, caps, k => a.run s caps (fun s' caps' => b.run s' caps' k)
  | .star p, s, caps, k => starRun p (fun s' => k s' caps) s
  | .plus p, s, caps, k =>
    match s with
    | [] => none
    | c :: cs => if p c then starRun p (fun s' => k s' caps) cs else none
  | .quest a, s, caps, k =>
    match a.run s caps k with
    | some r => some r
    | none => k s caps
  | .cap i a, s, caps, k =>
    a.run s caps (fun s' caps' => k s' ((i, s.take (s.length - s'.length)) :: caps'))

/-- The method `(*Regexp).NumSubexp`. -/
def Regex.NumSubexp : Regex → Nat
  | .cls _ => 0
  | .cat a b => a.NumSubexp + b.NumSubexp
  | .star _ => 0
  | .plus _ => 0
  | .quest a => a.NumSubexp
  | .cap _ a => a.NumSubexp + 1

/-- A match of `r` that starts at the beginning of `s`: the matched text and
the captures. -/
def Regex.matchHere (r : Regex) (s : GoString) : Option (GoString × Caps) :=
  r.run s [] (fun rest caps => some (s.take (s.length - rest.length), caps))

/-- The leftmost match of `r` in `s`: the start positions are tried from left
to right. -/
def Regex.search (r : Regex) : GoString → Option (GoString × Caps)
  | [] => r.matchHere []
  | c :: cs =>
    match r.matchHere (c :: cs) with
    | some m => some m
    | none => Regex.search r cs

/-- The method `(*Regexp).FindString`: the text of the leftmost match, the
empty string when there is none. -/
def FindString (r : Regex) (s : GoString) : GoString :=
  match r.search s with
  | some (m, _) => m
  | none => []

/-- The method `(*Regexp).FindStringSubmatch`: the text of the leftmost match
followed by the texts of the groups `1 .. NumSubexp`, or `nil` when there is
no match. -/
def FindStringSubmatch (r : Regex) (s : GoString) : List GoString :=
  match r.search s with
  | some (m, caps) => m :: (List.range r.NumSubexp).map (fun i => caps.get (i + 1))
  | none => []

/-- The language of a regular expression: `r.Matches w` says that `r` matches
the whole of `w`. -/
def Regex.Matches : Regex → GoString → Prop
  | .cls p, w => ∃ c, w = [c] ∧ p c = true
  | .cat a b, w => ∃ u v, w = u ++ v ∧ a.Matches u ∧ b.Matches v
  | .star p, w => ∀ c ∈ w, p c = true
  | .plus p, w => w ≠ [] ∧ ∀ c ∈ w, p c = true
  | .quest a, w => w = [] ∨ a.Matches w
  | .cap _ a, w => a.Matches w

/-- The language of a regular expression together with its capture groups:
`r.Captures w caps caps'` says that `r` matches the whole of `w` and turns the
captures `caps` into `caps'`. -/
def Regex.Captures : Regex → GoString → Caps → Caps → Prop
  | .cls p, w, c, c' => (∃ x, w = [x] ∧ p x = true) ∧ c' = c
  | .cat a b, w, c, c' => ∃ u v mid, w = u ++ v ∧ a.Captures u c mid ∧ b.Captures v mid c'
  | .star p, w, c, c' => (∀ x ∈ w, p x = true) ∧ c' = c
  | .plus p, w, c, c' => (w ≠ [] ∧ ∀ x ∈ w, p x = true) ∧ c' = c
  | .quest a, w, c, c' => (w = [] ∧ c' = c) ∨ a.Captures w c c'
  | .cap i a, w, c, c' => ∃ mid, a.Captures w c mid ∧ c' = (i, w) :: mid

/-- The pattern `r` ends with a greedy `*` on the class `p`. -/
def Regex.EndsWithStar (p : Char → Bool) : Regex → Prop
  | .cls _ => False
  | .cat _ b => b.EndsWithStar p
  | .star q => q = p
  | .plus _ => False
  | .quest _ => False
  | .cap _ a => a.EndsWithStar p

/-- The text `m` is a leftmost match of `r` in `s`, starting after `pre`: it
is matched by `r` and no text matched by `r` starts further left. -/
def IsLeftmostMatch (r : Regex) (s pre m : GoString) : Prop :=
  (∃ post, s = pre ++ m ++ post) ∧ r.Matches m ∧
    ∀ pre' u post', s = pre' ++ u ++ post' → r.Matches u → pre.length ≤ pre'.length

/-- No part of `s` is matched by `r`. -/
def NoMatch (r : Regex) (s : GoString) : Prop :=
  ∀ pre u post, s = pre ++ u ++ post → ¬ r.Matches u

/-! ### Character classes -/

/-- The class `\d`: ASCII digits. -/
def isDigit (c : Char) : Bool := 48 ≤ c.toNat && c.toNat ≤ 57

/-- The class `\w`: ASCII letters, digits and the underscore. -/
def isWord (c : Char) : Bool :=
  (48 ≤ c.toNat && c.toNat ≤ 57) || (65 ≤ c.toNat && c.toNat ≤ 90)
    || (97 ≤ c.toNat && c.toNat ≤ 122) || c.toNat == 95

/-- The class `\s`: tab, line feed, form feed, carriage return, space. -/
def isSpace (c : Char) : Bool :=
  c.toNat == 9 || c.toNat == 10 || c.toNat == 12 || c.toNat == 13 || c.toNat == 32

/-- The class `.`: every character but the line feed. -/
def isDot (c : Char) : Bool := !(c.toNat == 10)

/-- The class `[\p{Han}\w]`, for the class `\p{Han}` given by `isHan`. -/
def isHanOrWord (isHan : Char → Bool) (c : Char) : Bool := isHan c || isWord c

/-- A literal character. -/
def lit (x : Char) : Regex := .cls (fun c => c == x)

/-- The pattern `(\d+月\d+日\d+时)`. -/
def reDate : Regex :=
  .cap 1 (.cat (.plus isDigit) (.cat (lit '月') (.cat (.plus isDigit) (.cat (lit '日')
    (.cat (.plus isDigit) (lit '时'))))))

/-- The pattern `周.`, the content of the first group of `reWeather`. -/
def reWeekdayGroup : Regex := .cat (lit '周') (.cls isDot)

/-- The pattern `[\p{Han}\w]+转?[\p{Han}\w]*`, the content of the second group
of `reWeather`. -/
def reWeatherGroup (isHan : Char → Bool) : Regex :=
  .cat (.plus (isHanOrWord isHan)) (.cat (.quest (lit '转')) (.star (isHanOrWord isHan)))

/-- The pattern `(周.)\s*([\p{Han}\w]+转?[\p{Han}\w]*)`. -/
def reWeather (isHan : Char → Bool) : Regex :=
  .cat (.cap 1 reWeekdayGroup) (.cat (.star isSpace) (.cap 2 (reWeatherGroup isHan)))

/-- A text of the form digits, `月`, digits, `日`, digits, `时`, each run of
ASCII digits non-empty. -/
def IsDateText (u : GoString) : Prop :=
  ∃ d1 d2 d3 : GoString, d1 ≠ [] ∧ d2 ≠ [] ∧ d3 ≠ [] ∧
    (∀ c ∈ d1, isDigit c = true) ∧ (∀ c ∈ d2, isDigit c = true) ∧ (∀ c ∈ d3, isDigit c = true) ∧
    u = d1 ++ ['月'] ++ d2 ++ ['日'] ++ d3 ++ ['时']

/-- A text of the form digits, `/`, digits, `°C`, each run of ASCII digits
non-empty. -/
def IsTemperatureText (u : GoString) : Prop :=
  ∃ d1 d2 : GoString, d1 ≠ [] ∧ d2 ≠ [] ∧
    (∀ c ∈ d1, isDigit c = true) ∧ (∀ c ∈ d2, isDigit c = true) ∧
    u = d1 ++ ['/'] ++ d2 ++ ['°', 'C']

/-- The pattern `(\d+/\d+°C)`. -/
def reTemperature : Regex :=
  .cap 1 (.cat (.plus isDigit) (.cat (lit '/') (.cat (.plus isDigit) (.cat (lit '°') (lit 'C')))))

/-! ## `getWeather` -/

/-- The part of `getWeather` after the document has been parsed: the record
built from the city name and the `value` attribute of `#hidden_title`, for
the class `\p{Han}` given by `isHan`. -/
def extractFields (isHan : Char → Bool) (cityName inputValue : GoString) : GoMap :=
  let weatherInfo : GoMap := []
  let weatherInfo := weatherInfo.set "city".toList cityName
  let date := FindString reDate inputValue
  let weather := FindStringSubmatch (reWeather isHan) inputValue
  let temperature := FindString reTemperature inputValue
  let weatherInfo := weatherInfo.set "date".toList date
  let weatherInfo :=
    if weather.length > 2 then
      (weatherInfo.set "weekday".toList (weather.getD 1 [])).set "weather".toList (weather.getD 2 [])
    else weatherInfo
  weatherInfo.set "temperature".toList temperature

/-- The URL built by `getWeather`. -/
def weatherURL (dm : GoString) : GoString :=
  "http://www.weather.com.cn/weather1d/".toList ++ dm ++ ".shtml#search".toList

/-- The function `getWeather`, with its effect trace. -/
def getWeather (env : Env) (cityName dm : GoString) : Except GoString GoMap × List Effect :=
  let url := weatherURL dm
  match env.httpGet url with
  | .getFailed cause => (.error ("请求出错: ".toList ++ cause), [Effect.httpGet url])
  | .readFailed cause => (.error ("读取响应出错: ".toList ++ cause), [Effect.httpGet url])
  | .parseFailed cause => (.error ("解析HTML出错: ".toList ++ cause), [Effect.httpGet url])
  | .document inputValue =>
    (.ok (extractFields env.isHan cityName inputValue), [Effect.httpGet url])

/-! ## The handlers -/

/-- The body of an HTTP response: the text written by `http.Error` or the
JSON encoding of a record. -/
inductive Body
  | text (msg : GoString)
  | json (record : GoMap)
  deriving DecidableEq, Repr

/-- An HTTP response. -/
structure Response where
  status : Nat
  body : Body
  deriving DecidableEq, Repr

/-- An HTTP request: the method, the decoded query parameters in order, and
the result of `ioutil.ReadAll(r.Body)`. -/
structure Request where
  method : GoString
  query : List (GoString × GoString)
  body : Except GoString GoString

/-- The call `r.URL.Query().Get(key)`: the first value of `key`, the empty
string when there is none. -/
def Request.queryGet (r : Request) (key : GoString) : GoString :=
  match r.query.find? (fun e => e.1 == key) with
  | some e => e.2
  | none => []

/-- The function `http.Error`: the message and a line feed, with the given
status. -/
def httpError (msg : GoString) (code : Nat) : Response :=
  ⟨code, .text (msg ++ "\n".toList)⟩

/-- The function `handlePost`, with its effect trace. -/
def handlePost (env : Env) (r : Request) : Response × List Effect :=
  match readAreaCodes env "tqdm.txt".toList with
  | (.error _, t) => (httpError "读取文件失败".toList 500, t)
  | (.ok areaCodes, t) =>
    match r.body with
    | .error _ => (httpError "读取请求正文失败".toList 400, t)
    | .ok body =>
      match env.jsonUnmarshal body with
      | .error _ => (httpError "解析JSON数据失败".toList 400, t)
      | .ok requestData =>
        let areaName := (requestData.get? "area".toList).getD []
        match areaCodes.get? areaName with
        | none => (httpError "找不到区号".toList 404, t)
        | some areaCode =>
          match getWeather env areaName areaCode with
          | (.error err, t') => (httpError ("获取天气信息失败: ".toList ++ err) 500, t ++ t')
          | (.ok weatherInfo, t') => (⟨200, .json weatherInfo⟩, t ++ t')

/-- The function `handleGet`, with its effect trace. -/
def handleGet (env : Env) (r : Request) : Response × List Effect :=
  let areaName := r.queryGet "area".toList
  if areaName = [] then (httpError "缺少查询参数: area".toList 400, [])
  else
    match readAreaCodes env "tqdm.txt".toList with
    | (.error _, t) => (httpError "读取文件失败".toList 500, t)
    | (.ok areaCodes, t) =>
      match areaCodes.get? areaName with
      | none => (httpError "找不到区号".toList 404, t)
      | some areaCode =>
        match getWeather env areaName areaCode with
        | (.error err, t') => (httpError ("获取天气信息失败: ".toList ++ err) 500, t ++ t')
        | (.ok weatherInfo, t') => (⟨200, .json weatherInfo⟩, t ++ t')

/-- The function `weatherHandler`. -/
def weatherHandler (env : Env) (r : Request) : Response × List Effect :=
  if r.method = "POST".toList then handlePost env r
  else if r.method = "GET".toList then handleGet env r
  else (httpError "只允许GET和POST方法".toList 405, [])

/-! ## Auxiliary definitions -/

/-- The parts of a table line: the line without one trailing carriage return,
split on `" = "`. -/
def lineParts (line : GoString) : List GoString :=
  Split (TrimSuffix line "\r".toList) " = ".toList

/-- The part that `handleGet` and `handlePost` have in common: the lookup of
an area name in the loaded table and the fetch. -/
def lookupResponse (env : Env) (areaCodes : GoMap) (t : List Effect) (areaName : GoString) :
    Response × List Effect :=
  match areaCodes.get? areaName with
  | none => (httpError "找不到区号".toList 404, t)
  | some areaCode =>
    match getWeather env areaName areaCode with
    | (.error err, t') => (httpError ("获取天气信息失败: ".toList ++ err) 500, t ++ t')
    | (.ok weatherInfo, t') => (⟨200, .json weatherInfo⟩, t ++ t')

/-! ## The failure kinds of the specification -/

/-- The five failure kinds of a lookup in the specification's taxonomy. -/
inductive Failure
  | SourceUnavailable
  | AreaNotFound
  | NetworkFailure
  | ReadFailure
  | ParseFailure
  deriving DecidableEq, Repr

/-- The failure kind, in the specification's words, that a lookup of
`areaName` meets in `env`: the table file is unreadable, the name is absent
from the table, the fetch has a transport error, the response body is
unreadable, the markup is unparsable; `none` when the lookup succeeds. -/
def lookupFailure (env : Env) (areaName : GoString) : Option Failure :=
  match env.readFile "tqdm.txt".toList with
  | .error _ => some .SourceUnavailable
  | .ok content =>
    match (parseAreaCodes content).get? areaName with
    | none => some .AreaNotFound
    | some areaCode =>
      match env.httpGet (weatherURL areaCode) with
      | .getFailed _ => some .NetworkFailure
      | .readFailed _ => some .ReadFailure
      | .parseFailed _ => some .ParseFailure
      | .document _ => none

/-! ## Concrete environments -/

/-- A sample class `\p{Han}`: the block `U+4E00 .. U+9FA5` of CJK unified
ideographs, which every version of `unicode.Han` contains. -/
def sampleHan (c : Char) : Bool := 0x4e00 ≤ c.toNat && c.toNat ≤ 0x9fa5

/-- An environment whose table file has the given content, whose fetch yields
the given outcome for every URL, whose JSON decoder accepts exactly the given
body, decoding it to the given map, and whose class `\p{Han}` is
`sampleHan`. -/
def mkEnv (file : Except GoString GoString) (fetch : FetchOutcome)
    (jsonBody : GoString) (decoded : GoMap) : Env where
  readFile := fun _ => file
  httpGet := fun _ => fetch
  jsonUnmarshal := fun b =>
    if b = jsonBody then .ok decoded else .error "invalid character".toList
  isHan := sampleHan

/-- The class `isHan` with its values on `多`, `云`, `转`, `晴` and the space
written out. -/
def pinHan (isHan : Char → Bool) (c : Char) : Bool :=
  if c ∈ "多云转晴".toList then true else if c = ' ' then false else isHan c

/-- A table with a carriage-return line ending, a line without separator, a
line with two separators and a name that occurs twice. -/
def sampleTable : GoString :=
  "北京 = 101010100\r\n# codes\n上海 = 1 = 2\n广州 = 101280101\n北京 = 101010200\n".toList

/-- The attribute value of the specification's example. -/
def sampleTitle : GoString := "10月5日14时 周三 多云转晴 20/28°C".toList

/-- An attribute value without date. -/
def sampleTitleNoDate : GoString := "周三 多云转晴 20/28°C".toList

/-- An attribute value without weekday. -/
def sampleTitleNoWeekday : GoString := "10月5日14时 20/28°C".toList

/-- The JSON body `{"area": "北京"}`. -/
def sampleBody : GoString := "\x7b\"area\": \"北京\"\x7d".toList

/-- The JSON body `{"area": "深圳"}`, a name that is not in the sample table. -/
def absentBody : GoString := "\x7b\"area\": \"深圳\"\x7d".toList

/-- A body that is not valid JSON: a single opening brace. -/
def malformedBody : GoString := "\x7b".toList

/-- A `GET /weather?area=<name>` request. -/
def getRequest (name : GoString) : Request :=
  ⟨"GET".toList, [("area".toList, name)], .ok []⟩

/-- A `POST /weather` request with the given body. -/
def postRequest (body : GoString) : Request :=
  ⟨"POST".toList, [], .ok body⟩

/-! ## Lemmas on maps -/

theorem GoMap.get?_filter_ne (m : GoMap) (k k' : GoString) (h : k ≠ k') :
    GoMap.get? (m.filter (fun e => !(e.1 == k))) k' = GoMap.get? m k' := by
  induction m with
  | nil => rfl
  | cons e rest ih =>
    obtain ⟨a, b⟩ := e
    by_cases hak : a = k
    · subst hak
      simp [List.filter, GoMap.get?, h, ih]
    · have hb : (!(a == k)) = true := by simp [hak]
      simp only [List.filter, hb, GoMap.get?, ih]

theorem GoMap.get?_set (m : GoMap) (k v k' : GoString) :
    (m.set k v).get? k' = if k = k' then some v else m.get? k' := by
  by_cases h : k = k'
  · simp [GoMap.set, GoMap.get?, h]
  · simp [GoMap.set, GoMap.get?, h, GoMap.get?_filter_ne m k k' h]

theorem GoMap.get?_nil (k : GoString) : GoMap.get? [] k = none := rfl

theorem GoMap.get?_set_self (m : GoMap) (k v : GoString) : (m.set k v).get? k = some v := by
  simp [GoMap.get?_set]

/-! ## Lemmas on the table -/

theorem areaCodesStep_eq (m : GoMap) (line : GoString) :
    areaCodesStep m line
      = if (lineParts line).length = 2 then
          m.set ((lineParts line).getD 0 []) ((lineParts line).getD 1 [])
        else m := rfl

theorem areaCodesStep_valid (m : GoMap) (line name code : GoString)
    (h : lineParts line = [name, code]) : areaCodesStep m line = m.set name code := by
  rw [areaCodesStep_eq, h]
  rfl

theorem areaCodesStep_invalid (m : GoMap) (line : GoString)
    (h : (lineParts line).length ≠ 2) : areaCodesStep m line = m := by
  rw [areaCodesStep_eq, if_neg h]

theorem length_two_iff (l : List GoString) : l.length = 2 ↔ ∃ a b, l = [a, b] := by
  constructor
  · intro h
    match l, h with
    | [a, b], _ => exact ⟨a, b, rfl⟩
  · rintro ⟨a, b, rfl⟩
    rfl

/-- A name that no valid line carries keeps its entry. -/
theorem foldl_get?_of_absent (ls : List GoString) (m : GoMap) (k : GoString)
    (h : ∀ l ∈ ls, ∀ v, lineParts l ≠ [k, v]) :
    (ls.foldl areaCodesStep m).get? k = m.get? k := by
  induction ls generalizing m with
  | nil => rfl
  | cons l rest ih =>
    rw [List.foldl_cons, ih _ (fun l' hl' => h l' (List.mem_cons_of_mem _ hl'))]
    by_cases hv : (lineParts l).length = 2
    · obtain ⟨a, b, hab⟩ := (length_two_iff _).1 hv
      rw [areaCodesStep_valid m l a b hab, GoMap.get?_set]
      have hne : a ≠ k := by
        rintro rfl
        exact h l (List.mem_cons_self _ _) b hab
      simp [hne]
    · rw [areaCodesStep_invalid m l hv]

/-- The last valid line that carries a name decides its code. -/
theorem foldl_get?_of_last (pre post : List GoString) (l : GoString) (m : GoMap)
    (k v : GoString) (hl : lineParts l = [k, v])
    (hpost : ∀ l' ∈ post, ∀ v', lineParts l' ≠ [k, v']) :
    ((pre ++ l :: post).foldl areaCodesStep m).get? k = some v := by
  rw [List.foldl_append, List.foldl_cons, foldl_get?_of_absent post _ k hpost,
    areaCodesStep_valid _ l k v hl, GoMap.get?_set_self]

/-- Every entry of the table comes from the initial map or from a valid
line. -/
theorem foldl_get?_origin (ls : List GoString) (m : GoMap) (k v : GoString)
    (h : (ls.foldl areaCodesStep m).get? k = some v) :
    m.get? k = some v ∨ ∃ l ∈ ls, lineParts l = [k, v] := by
  induction ls generalizing m with
  | nil => exact Or.inl h
  | cons l rest ih =>
    rw [List.foldl_cons] at h
    rcases ih _ h with h1 | ⟨l', hl', hp⟩
    · by_cases hv : (lineParts l).length = 2
      · obtain ⟨a, b, hab⟩ := (length_two_iff _).1 hv
        rw [areaCodesStep_valid m l a b hab, GoMap.get?_set] at h1
        by_cases hak : a = k
        · subst hak
          simp at h1
          subst h1
          exact Or.inr ⟨l, List.mem_cons_self _ _, hab⟩
        · simp [hak] at h1
          exact Or.inl h1
      · rw [areaCodesStep_invalid m l hv] at h1
        exact Or.inl h1
    · exact Or.inr ⟨l', List.mem_cons_of_mem _ hl', hp⟩

/-- A key once present stays present. -/
theorem foldl_get?_isSome (ls : List GoString) (m : GoMap) (k : GoString)
    (h : (m.get? k).isSome) : ((ls.foldl areaCodesStep m).get? k).isSome := by
  induction ls generalizing m with
  | nil => exact h
  | cons l rest ih =>
    rw [List.foldl_cons]
    apply ih
    by_cases hv : (lineParts l).length = 2
    · obtain ⟨a, b, hab⟩ := (length_two_iff _).1 hv
      rw [areaCodesStep_valid m l a b hab, GoMap.get?_set]
      by_cases hak : a = k
      · simp [hak]
      · simp [hak, h]
    · rw [areaCodesStep_invalid m l hv]
      exact h

/-- The name of a valid line is a key of the table. -/
theorem foldl_get?_of_mem (ls : List GoString) (m : GoMap) (l k v : GoString)
    (hl : l ∈ ls) (hp : lineParts l = [k, v]) :
    ((ls.foldl areaCodesStep m).get? k).isSome := by
  obtain ⟨pre, post, rfl⟩ := List.append_of_mem hl
  rw [List.foldl_append, List.foldl_cons]
  apply foldl_get?_isSome
  rw [areaCodesStep_valid _ l k v hp, GoMap.get?_set_self]
  rfl

/-- Lines that are not valid can be dropped from the text without changing
the table. -/
theorem foldl_filter_valid (ls : List GoString) (m : GoMap) :
    ls.foldl areaCodesStep m
      = (ls.filter (fun l => decide ((lineParts l).length = 2))).foldl areaCodesStep m := by
  induction ls generalizing m with
  | nil => rfl
  | cons l rest ih =>
    by_cases hv : (lineParts l).length = 2
    · simp only [List.foldl_cons, List.filter_cons, hv, decide_True, if_true]
      exact ih _
    · simp only [List.foldl_cons, List.filter_cons, hv, decide_False]
      rw [areaCodesStep_invalid m l hv]
      simpa using ih m

/-! ## Lemmas on `strings` -/

theorem HasPrefix_iff (s p : GoString) : HasPrefix s p = true ↔ ∃ t, s = p ++ t := by
  induction p generalizing s with
  | nil => cases s <;> simp [HasPrefix]
  | cons x ps ih =>
    cases s with
    | nil => simp [HasPrefix]
    | cons c cs =>
      simp only [HasPrefix, Bool.and_eq_true, beq_iff_eq, ih, List.cons_append, List.cons.injEq]
      constructor
      · rintro ⟨rfl, t, rfl⟩
        exact ⟨t, rfl, rfl⟩
      · rintro ⟨t, rfl, rfl⟩
        exact ⟨rfl, t, rfl⟩

theorem HasSuffix_iff (s suffix : GoString) : HasSuffix s suffix = true ↔ ∃ t, s = t ++ suffix := by
  unfold HasSuffix
  rw [HasPrefix_iff]
  constructor
  · rintro ⟨t, ht⟩
    refine ⟨t.reverse, ?_⟩
    have := congrArg List.reverse ht
    simpa using this
  · rintro ⟨t, rfl⟩
    exact ⟨t.reverse, by simp⟩

theorem TrimSuffix_append (t suffix : GoString) : TrimSuffix (t ++ suffix) suffix = t := by
  have h : HasSuffix (t ++ suffix) suffix = true := (HasSuffix_iff _ _).2 ⟨t, rfl⟩
  simp [TrimSuffix, h]

theorem TrimSuffix_of_not (s suffix : GoString) (h : HasSuffix s suffix = false) :
    TrimSuffix s suffix = s := by
  simp [TrimSuffix, h]

theorem splitAux_ne_nil (sep s : GoString) (skip : Nat) (cur : GoString) :
    splitAux sep s skip cur ≠ [] := by
  induction s generalizing skip cur with
  | nil => simp [splitAux]
  | cons c cs ih =>
    cases skip with
    | succ n => simpa [splitAux] using ih n cur
    | zero =>
      simp only [splitAux]
      split
      · simp
      · exact ih 0 _

theorem Join_cons (a : GoString) (rest : List GoString) (sep : GoString) (h : rest ≠ []) :
    Join (a :: rest) sep = a ++ sep ++ Join rest sep := by
  cases rest with
  | nil => exact absurd rfl h
  | cons b r => rfl

/-- Passing over the rest of a separator occurrence. -/
theorem splitAux_skip (sep p s cur : GoString) :
    splitAux sep (p ++ s) p.length cur = splitAux sep s 0 cur := by
  induction p with
  | nil => rfl
  | cons x ps ih => simpa [splitAux] using ih

/-- Joining the pieces with the separator gives the text back. -/
theorem Join_splitAux (sep : GoString) (hsep : sep ≠ []) (n : Nat) :
    ∀ s cur : GoString, s.length ≤ n → Join (splitAux sep s 0 cur) sep = cur.reverse ++ s := by
  induction n with
  | zero =>
    intro s cur hs
    have : s = [] := List.length_eq_zero.1 (Nat.le_zero.1 hs)
    subst this
    simp [splitAux, Join]
  | succ n ih =>
    intro s cur hs
    cases s with
    | nil => simp [splitAux, Join]
    | cons c cs =>
      simp only [splitAux]
      by_cases hp : HasPrefix (c :: cs) sep = true
      · rw [if_pos hp, Join_cons _ _ _ (splitAux_ne_nil _ _ _ _)]
        obtain ⟨t, ht⟩ := (HasPrefix_iff _ _).1 hp
        cases sep with
        | nil => exact absurd rfl hsep
        | cons x sep' =>
          simp only [List.cons_append, List.cons.injEq] at ht
          obtain ⟨rfl, rfl⟩ := ht
          have hlen : t.length ≤ n := by
            simp only [List.length_cons, List.length_append] at hs
            omega
          simp only [List.length_cons, Nat.add_sub_cancel]
          rw [splitAux_skip, ih t [] hlen]
          simp
      · rw [if_neg hp]
        have hlen : cs.length ≤ n := by simpa using hs
        rw [ih cs (c :: cur) hlen]
        simp

/-- The method `strings.Join` undoes `strings.Split`. -/
theorem Join_Split (s sep : GoString) (hsep : sep ≠ []) : Join (Split s sep) sep = s := by
  simpa [Split] using Join_splitAux sep hsep s.length s [] (Nat.le_refl _)

/-- A text that splits into exactly two parts is the first part, the
separator and the second part. -/
theorem eq_of_Split_pair (s sep a b : GoString) (hsep : sep ≠ []) (h : Split s sep = [a, b]) :
    s = a ++ sep ++ b := by
  have := Join_Split s sep hsep
  rw [h] at this
  exact this.symm

/-- The code of a valid line ends with a carriage return only when the line
ends with two of them. -/
theorem code_suffix_of_lineParts (line k v : GoString) (h : lineParts line = [k, v])
    (hv : HasSuffix v "\r".toList = true) : HasSuffix line "\r\r".toList = true := by
  unfold lineParts at h
  have hjoin := eq_of_Split_pair _ _ k v (by decide) h
  obtain ⟨v', rfl⟩ := (HasSuffix_iff _ _).1 hv
  by_cases hl : HasSuffix line "\r".toList = true
  · obtain ⟨t, rfl⟩ := (HasSuffix_iff _ _).1 hl
    rw [TrimSuffix_append] at hjoin
    subst hjoin
    exact (HasSuffix_iff _ _).2 ⟨k ++ " = ".toList ++ v', by simp⟩
  · rw [TrimSuffix_of_not _ _ (by simpa using hl)] at hjoin
    exact absurd ((HasSuffix_iff _ _).2 ⟨k ++ " = ".toList ++ v', by rw [hjoin]; simp⟩) hl

/-! ## Lemmas on the matcher -/

theorem Regex.Matches_of_Captures (r : Regex) (w : GoString) (c c' : Caps)
    (h : r.Captures w c c') : r.Matches w := by
  induction r generalizing w c c' with
  | cls p => exact h.1
  | cat a b iha ihb =>
    obtain ⟨u, v, mid, rfl, ha, hb⟩ := h
    exact ⟨u, v, rfl, iha _ _ _ ha, ihb _ _ _ hb⟩
  | star p => exact h.1
  | plus p => exact h.1
  | quest a iha =>
    rcases h with ⟨rfl, _⟩ | h
    · exact Or.inl rfl
    · exact Or.inr (iha _ _ _ h)
  | cap i a iha =>
    obtain ⟨mid, ha, _⟩ := h
    exact iha _ _ _ ha

theorem starRun_sound {α : Type} (p : Char → Bool) (k : GoString → Option α) (s : GoString)
    (x : α) (h : starRun p k s = some x) :
    ∃ u s', s = u ++ s' ∧ (∀ c ∈ u, p c = true) ∧ k s' = some x := by
  induction s with
  | nil => exact ⟨[], [], rfl, by simp, h⟩
  | cons c cs ih =>
    simp only [starRun] at h
    by_cases hp : p c = true
    · rw [if_pos hp] at h
      cases hr : starRun p k cs with
      | some y =>
        rw [hr] at h
        simp only [Option.some.injEq] at h
        subst h
        obtain ⟨u, s', hs, hu, hk⟩ := ih hr
        refine ⟨c :: u, s', by simp [hs], ?_, hk⟩
        intro d hd
        rcases List.mem_cons.1 hd with rfl | hd
        · exact hp
        · exact hu d hd
      | none =>
        rw [hr] at h
        exact ⟨[], c :: cs, rfl, by simp, h⟩
    · rw [if_neg hp] at h
      exact ⟨[], c :: cs, rfl, by simp, h⟩

theorem starRun_complete {α : Type} (p : Char → Bool) (k : GoString → Option α)
    (u s' : GoString) (hu : ∀ c ∈ u, p c = true) (hk : (k s').isSome) :
    (starRun p k (u ++ s')).isSome := by
  induction u with
  | nil =>
    cases s' with
    | nil => exact hk
    | cons c cs =>
      simp only [List.nil_append, starRun]
      split
      · split
        · rfl
        · exact hk
      · exact hk
  | cons c u ih =>
    have hc : p c = true := hu c (List.mem_cons_self _ _)
    have := ih (fun d hd => hu d (List.mem_cons_of_mem _ hd))
    simp only [List.cons_append, starRun, if_pos hc]
    cases hr : starRun p k (u ++ s') with
    | some y => rfl
    | none => rw [hr] at this; exact absurd this (by simp)

/-- Soundness of the matcher: a result comes from a prefix in the language of
`r` and the continuation applied to what follows it. -/
theorem Regex.run_sound {α : Type} (r : Regex) (s : GoString) (caps : Caps)
    (k : GoString → Caps → Option α) (x : α) (h : r.run s caps k = some x) :
    ∃ u s' caps', s = u ++ s' ∧ r.Captures u caps caps' ∧ k s' caps' = some x := by
  induction r generalizing s caps k with
  | cls p =>
    cases s with
    | nil => simp [Regex.run] at h
    | cons c cs =>
      simp only [Regex.run] at h
      by_cases hp : p c = true
      · rw [if_pos hp] at h
        exact ⟨[c], cs, caps, rfl, ⟨⟨c, rfl, hp⟩, rfl⟩, h⟩
      · rw [if_neg hp] at h
        exact absurd h (by simp)
  | cat a b iha ihb =>
    simp only [Regex.run] at h
    obtain ⟨u, s1, c1, rfl, ha, h1⟩ := iha _ _ _ h
    obtain ⟨v, s2, c2, rfl, hb, h2⟩ := ihb _ _ _ h1
    exact ⟨u ++ v, s2, c2, by simp, ⟨u, v, c1, rfl, ha, hb⟩, h2⟩
  | star p =>
    simp only [Regex.run] at h
    obtain ⟨u, s', hs, hu, hk⟩ := starRun_sound _ _ _ _ h
    exact ⟨u, s', caps, hs, ⟨hu, rfl⟩, hk⟩
  | plus p =>
    cases s with
    | nil => simp [Regex.run] at h
    | cons c cs =>
      simp only [Regex.run] at h
      by_cases hp : p c = true
      · rw [if_pos hp] at h
        obtain ⟨u, s', hs, hu, hk⟩ := starRun_sound _ _ _ _ h
        refine ⟨c :: u, s', caps, by simp [hs], ⟨⟨by simp, ?_⟩, rfl⟩, hk⟩
        intro d hd
        rcases List.mem_cons.1 hd with rfl | hd
        · exact hp
        · exact hu d hd
      · rw [if_neg hp] at h
        exact absurd h (by simp)
  | quest a iha =>
    simp only [Regex.run] at h
    cases hr : a.run s caps k with
    | some y =>
      rw [hr] at h
      simp only [Option.some.injEq] at h
      subst h
      obtain ⟨u, s', c', hs, ha, hk⟩ := iha _ _ _ hr
      exact ⟨u, s', c', hs, Or.inr ha, hk⟩
    | none =>
      rw [hr] at h
      exact ⟨[], s, caps, rfl, Or.inl ⟨rfl, rfl⟩, h⟩
  | cap i a iha =>
    simp only [Regex.run] at h
    obtain ⟨u, s', c', rfl, ha, hk⟩ := iha _ _ _ h
    refine ⟨u, s', (i, u) :: c', rfl, ⟨c', ha, rfl⟩, ?_⟩
    simpa using hk

/-- Completeness of the matcher: when a prefix is in the language of `r` and
the continuation accepts what follows it, the matcher returns a result. -/
theorem Regex.run_complete {α : Type} (r : Regex) (u s' : GoString) (caps : Caps)
    (k : GoString → Caps → Option α) (hu : r.Matches u) (hk : ∀ c, (k s' c).isSome) :
    (r.run (u ++ s') caps k).isSome := by
  induction r generalizing u s' caps k with
  | cls p =>
    obtain ⟨c, rfl, hp⟩ := hu
    simp only [List.singleton_append, Regex.run, if_pos hp]
    exact hk caps
  | cat a b iha ihb =>
    obtain ⟨v, w, rfl, ha, hb⟩ := hu
    simp only [Regex.run, List.append_assoc]
    exact iha v (w ++ s') caps _ ha (fun c => ihb w s' c k hb hk)
  | star p =>
    simp only [Regex.run]
    exact starRun_complete p _ u s' hu (hk caps)
  | plus p =>
    obtain ⟨hne, hall⟩ := hu
    cases u with
    | nil => exact absurd rfl hne
    | cons c u =>
      have hc : p c = true := hall c (List.mem_cons_self _ _)
      simp only [List.cons_append, Regex.run, if_pos hc]
      exact starRun_complete p _ u s' (fun d hd => hall d (List.mem_cons_of_mem _ hd)) (hk caps)
  | quest a iha =>
    simp only [Regex.run]
    cases hr : a.run (u ++ s') caps k with
    | some y => rfl
    | none =>
      rcases hu with rfl | hu
      · exact hk caps
      · have := iha u s' caps k hu hk
        rw [hr] at this
        exact absurd this (by simp)
  | cap i a iha =>
    simp only [Regex.run]
    exact iha u s' caps _ hu (fun c => hk _)

theorem Regex.matchHere_sound (r : Regex) (s m : GoString) (caps : Caps)
    (h : r.matchHere s = some (m, caps)) : ∃ rest, s = m ++ rest ∧ r.Captures m [] caps := by
  obtain ⟨u, s', c', rfl, hc, hk⟩ := Regex.run_sound r s [] _ _ h
  simp only [List.length_append, Nat.add_sub_cancel, List.take_left', Option.some.injEq,
    Prod.mk.injEq] at hk
  obtain ⟨rfl, rfl⟩ := hk
  exact ⟨s', rfl, hc⟩

theorem Regex.matchHere_complete (r : Regex) (u rest : GoString) (hu : r.Matches u) :
    (r.matchHere (u ++ rest)).isSome :=
  Regex.run_complete r u rest [] _ hu (fun _ => rfl)

/-- A result of the search is the result of the matcher at the leftmost
position where a matched text starts. -/
theorem Regex.search_matchHere (r : Regex) (s : GoString) (y : GoString × Caps)
    (h : r.search s = some y) :
    ∃ pre s0, s = pre ++ s0 ∧ r.matchHere s0 = some y ∧
      ∀ pre' u post', s = pre' ++ u ++ post' → r.Matches u → pre.length ≤ pre'.length := by
  induction s with
  | nil => exact ⟨[], [], rfl, h, fun _ _ _ _ _ => Nat.zero_le _⟩
  | cons c cs ih =>
    simp only [Regex.search] at h
    cases hm : r.matchHere (c :: cs) with
    | some z =>
      rw [hm] at h
      simp only [Option.some.injEq] at h
      subst h
      exact ⟨[], c :: cs, rfl, hm, fun _ _ _ _ _ => Nat.zero_le _⟩
    | none =>
      rw [hm] at h
      obtain ⟨pre, s0, hs, hs0, hleft⟩ := ih h
      refine ⟨c :: pre, s0, by simp [hs], hs0, ?_⟩
      intro pre' u post' hs' hu
      cases pre' with
      | nil =>
        have := Regex.matchHere_complete r u post' hu
        simp only [List.nil_append] at hs'
        rw [← hs', hm] at this
        exact absurd this (by simp)
      | cons d pre' =>
        simp only [List.cons_append, List.cons.injEq] at hs'
        have := hleft pre' u post' hs'.2 hu
        simp only [List.length_cons]
        omega

/-- A result of the search is a leftmost match, with its captures. -/
theorem Regex.search_sound (r : Regex) (s m : GoString) (caps : Caps)
    (h : r.search s = some (m, caps)) :
    ∃ pre, IsLeftmostMatch r s pre m ∧ r.Captures m [] caps := by
  obtain ⟨pre, s0, hs, hs0, hleft⟩ := Regex.search_matchHere r s _ h
  obtain ⟨rest, hrest, hc⟩ := Regex.matchHere_sound r s0 m caps hs0
  exact ⟨pre, ⟨⟨rest, by rw [hs, hrest, List.append_assoc]⟩,
    Regex.Matches_of_Captures _ _ _ _ hc, hleft⟩, hc⟩

/-- The search fails exactly when no part of the text is matched. -/
theorem Regex.search_eq_none_iff (r : Regex) (s : GoString) :
    r.search s = none ↔ NoMatch r s := by
  constructor
  · intro h
    induction s with
    | nil =>
      intro pre u post hs hu
      have hnil := hs.symm
      simp only [List.append_eq_nil] at hnil
      obtain ⟨⟨_, rfl⟩, _⟩ := hnil
      have := Regex.matchHere_complete r [] [] hu
      simp only [Regex.search] at h
      simp only [List.append_nil] at this
      rw [h] at this
      exact absurd this (by simp)
    | cons c cs ih =>
      simp only [Regex.search] at h
      cases hm : r.matchHere (c :: cs) with
      | some y => rw [hm] at h; exact absurd h (by simp)
      | none =>
        rw [hm] at h
        intro pre u post hs hu
        cases pre with
        | nil =>
          have := Regex.matchHere_complete r u post hu
          simp only [List.nil_append] at hs
          rw [← hs, hm] at this
          exact absurd this (by simp)
        | cons d pre =>
          simp only [List.cons_append, List.cons.injEq] at hs
          exact ih h pre u post hs.2 hu
  · intro h
    cases hs : r.search s with
    | none => rfl
    | some y =>
      obtain ⟨m, caps⟩ := y
      obtain ⟨pre, ⟨⟨post, hpost⟩, hmat, _⟩, _⟩ := Regex.search_sound r s m caps hs
      exact absurd hmat (h pre m post hpost)

/-- A greedy `*` whose continuation accepts everything takes the longest run
of the class. -/
theorem starRun_max {α : Type} (p : Char → Bool) (k : GoString → Option α)
    (hk : ∀ s', (k s').isSome) (s : GoString) : starRun p k s = k (s.dropWhile p) := by
  induction s with
  | nil => rfl
  | cons c cs ih =>
    simp only [starRun, List.dropWhile_cons]
    by_cases hp : p c = true
    · rw [if_pos hp, if_pos hp, ih]
      cases hr : k (cs.dropWhile p) with
      | some y => rfl
      | none =>
        have := hk (cs.dropWhile p)
        rw [hr] at this
        exact absurd this (by simp)
    · rw [if_neg hp, if_neg hp]

theorem dropWhile_head_not (p : Char → Bool) (s : GoString) :
    ∀ c ∈ (s.dropWhile p).head?, p c = false := by
  induction s with
  | nil => simp
  | cons x xs ih =>
    rw [List.dropWhile_cons]
    by_cases hp : p x = true
    · rw [if_pos hp]
      exact ih
    · rw [if_neg hp]
      intro c hc
      simp only [List.head?_cons, Option.mem_def, Option.some.injEq] at hc
      subst hc
      simpa using hp

/-- A pattern that ends with a greedy `*`, run with a continuation that
accepts everything, stops in front of a character outside the class or at the
end of the text. -/
theorem Regex.run_greedy {α : Type} (p : Char → Bool) (r : Regex) (hr : r.EndsWithStar p)
    (s : GoString) (caps : Caps) (k : GoString → Caps → Option α)
    (hk : ∀ s' c', (k s' c').isSome) (x : α) (h : r.run s caps k = some x) :
    ∃ u s' caps', s = u ++ s' ∧ k s' caps' = some x ∧ ∀ c ∈ s'.head?, p c = false := by
  induction r generalizing s caps k with
  | cls q => exact absurd hr (by simp [Regex.EndsWithStar])
  | plus q => exact absurd hr (by simp [Regex.EndsWithStar])
  | quest a _ => exact absurd hr (by simp [Regex.EndsWithStar])
  | star q =>
    simp only [Regex.EndsWithStar] at hr
    subst hr
    simp only [Regex.run] at h
    rw [starRun_max q _ (fun s' => hk s' caps)] at h
    exact ⟨s.takeWhile q, s.dropWhile q, caps, (List.takeWhile_append_dropWhile q s).symm, h,
      dropWhile_head_not q s⟩
  | cat a b _ ihb =>
    simp only [Regex.run] at h
    obtain ⟨u, s1, c1, rfl, _, h1⟩ := Regex.run_sound a _ _ _ _ h
    obtain ⟨v, s2, c2, rfl, h2, hhead⟩ := ihb hr s1 c1 k hk h1
    exact ⟨u ++ v, s2, c2, by simp, h2, hhead⟩
  | cap i a iha =>
    simp only [Regex.run] at h
    obtain ⟨u, s', c', hs, h', hhead⟩ := iha hr s caps _ (fun _ _ => hk _ _) h
    exact ⟨u, s', _, hs, h', hhead⟩

theorem Regex.matchHere_greedy (p : Char → Bool) (r : Regex) (hr : r.EndsWithStar p)
    (s m : GoString) (caps : Caps) (h : r.matchHere s = some (m, caps)) :
    ∃ rest, s = m ++ rest ∧ ∀ c ∈ rest.head?, p c = false := by
  unfold Regex.matchHere at h
  obtain ⟨u, s', c', rfl, hk, hhead⟩ :=
    Regex.run_greedy p r hr s []
      (fun rest caps => some (s.take (s.length - rest.length), caps)) (fun _ _ => rfl) _ h
  simp only [List.length_append, Nat.add_sub_cancel, List.take_left', Option.some.injEq,
    Prod.mk.injEq] at hk
  obtain ⟨rfl, _⟩ := hk
  exact ⟨s', rfl, hhead⟩

/-- Two runs of a class, each followed by a character outside the class, that
start the same text are the same run. -/
theorem run_unique (p : Char → Bool) (d d' r r' : GoString) (x x' : Char)
    (hd : ∀ c ∈ d, p c = true) (hd' : ∀ c ∈ d', p c = true)
    (hx : p x = false) (hx' : p x' = false) (h : d ++ x :: r = d' ++ x' :: r') :
    d = d' ∧ x = x' ∧ r = r' := by
  induction d generalizing d' with
  | nil =>
    cases d' with
    | nil =>
      simp only [List.nil_append, List.cons.injEq] at h
      exact ⟨rfl, h.1, h.2⟩
    | cons c d'' =>
      simp only [List.nil_append, List.cons_append, List.cons.injEq] at h
      have := hd' c (List.mem_cons_self _ _)
      rw [← h.1, hx] at this
      exact absurd this (by simp)
  | cons c d1 ih =>
    cases d' with
    | nil =>
      simp only [List.nil_append, List.cons_append, List.cons.injEq] at h
      have := hd c (List.mem_cons_self _ _)
      rw [h.1, hx'] at this
      exact absurd this (by simp)
    | cons c' d'' =>
      simp only [List.cons_append, List.cons.injEq] at h
      obtain ⟨h1, h2, h3⟩ := ih d'' (fun c hc => hd c (List.mem_cons_of_mem _ hc))
        (fun c hc => hd' c (List.mem_cons_of_mem _ hc)) h.2
      exact ⟨by rw [h.1, h1], h2, h3⟩

/-- Two leftmost matches start at the same place. -/
theorem IsLeftmostMatch_pre_unique (r : Regex) (s pre m pre' m' : GoString)
    (h : IsLeftmostMatch r s pre m) (h' : IsLeftmostMatch r s pre' m') :
    pre' = pre ∧ ∃ post post', m ++ post = m' ++ post' := by
  obtain ⟨⟨post, hs⟩, hm, hleft⟩ := h
  obtain ⟨⟨post', hs'⟩, hm', hleft'⟩ := h'
  have hlen : pre.length = pre'.length :=
    Nat.le_antisymm (hleft pre' m' post' hs' hm') (hleft' pre m post hs hm)
  rw [List.append_assoc] at hs hs'
  have heq : pre ++ (m ++ post) = pre' ++ (m' ++ post') := hs.symm.trans hs'
  have := List.append_inj heq hlen
  exact ⟨this.1.symm, post, post', this.2⟩

theorem IsDateText_unique (u u' r r' : GoString) (hu : IsDateText u) (hu' : IsDateText u')
    (h : u ++ r = u' ++ r') : u = u' := by
  obtain ⟨d1, d2, d3, _, _, _, a1, a2, a3, rfl⟩ := hu
  obtain ⟨e1, e2, e3, _, _, _, b1, b2, b3, rfl⟩ := hu'
  simp only [List.append_assoc, List.singleton_append, List.cons_append, List.nil_append] at h
  obtain ⟨rfl, _, h⟩ := run_unique isDigit _ _ _ _ _ _ a1 b1 (by decide) (by decide) h
  obtain ⟨rfl, _, h⟩ := run_unique isDigit _ _ _ _ _ _ a2 b2 (by decide) (by decide) h
  obtain ⟨rfl, _, _⟩ := run_unique isDigit _ _ _ _ _ _ a3 b3 (by decide) (by decide) h
  rfl

theorem IsTemperatureText_unique (u u' r r' : GoString) (hu : IsTemperatureText u)
    (hu' : IsTemperatureText u') (h : u ++ r = u' ++ r') : u = u' := by
  obtain ⟨d1, d2, _, _, a1, a2, rfl⟩ := hu
  obtain ⟨e1, e2, _, _, b1, b2, rfl⟩ := hu'
  simp only [List.append_assoc, List.singleton_append, List.cons_append, List.nil_append] at h
  obtain ⟨rfl, _, h⟩ := run_unique isDigit _ _ _ _ _ _ a1 b1 (by decide) (by decide) h
  obtain ⟨rfl, _, _⟩ := run_unique isDigit _ _ _ _ _ _ a2 b2 (by decide) (by decide) h
  rfl

/-- A list of parts that has not two members, or whose first member is not
`name`, is no pair `name, c`. -/
theorem ne_pair_of (parts : List GoString) (name : GoString)
    (h : parts.length ≠ 2 ∨ parts.head? ≠ some name) (c : GoString) : parts ≠ [name, c] := by
  rintro rfl
  rcases h with h | h
  · exact h rfl
  · exact h rfl

/-! ## The table claims -/

/-- C1: when the table file is readable, `readAreaCodes` returns a map whose
keys are exactly the names of the valid lines (the pieces of the text between
line feeds, one trailing carriage return removed, that split on `" = "` into
exactly two parts); a valid line whose name is on no other valid line appears
as the pair name, code; every entry of the map comes from a valid line, and
the map is the one built from the valid lines alone. -/
theorem readAreaCodes_keys_and_pairs (env : Env) (filename content : GoString)
    (hread : env.readFile filename = .ok content) :
    ∃ m, (readAreaCodes env filename).1 = .ok m ∧
      (∀ k, (m.get? k).isSome ↔
        ∃ line ∈ Split content "\n".toList, ∃ code,
          Split (TrimSuffix line "\r".toList) " = ".toList = [k, code]) ∧
      (∀ pre post line name code, Split content "\n".toList = pre ++ line :: post →
        Split (TrimSuffix line "\r".toList) " = ".toList = [name, code] →
        (∀ l ∈ pre ++ post, ∀ c,
          Split (TrimSuffix l "\r".toList) " = ".toList ≠ [name, c]) →
        m.get? name = some code) ∧
      (∀ k v, m.get? k = some v →
        ∃ line ∈ Split content "\n".toList,
          Split (TrimSuffix line "\r".toList) " = ".toList = [k, v]) ∧
      m = ((Split content "\n".toList).filter (fun l =>
            decide ((Split (TrimSuffix l "\r".toList) " = ".toList).length = 2))).foldl
          areaCodesStep [] := by
  refine ⟨parseAreaCodes content, by simp [readAreaCodes, hread], ?_, ?_, ?_, ?_⟩
  · intro k
    constructor
    · intro h
      obtain ⟨v, hv⟩ := Option.isSome_iff_exists.1 h
      rcases foldl_get?_origin _ _ k v hv with h0 | ⟨l, hl, hp⟩
      · exact absurd h0 (by simp [GoMap.get?])
      · exact ⟨l, hl, v, hp⟩
    · rintro ⟨l, hl, v, hp⟩
      exact foldl_get?_of_mem _ _ l k v hl hp
  · intro pre post line name code hsplit hp hothers
    unfold parseAreaCodes
    rw [hsplit]
    exact foldl_get?_of_last pre post line [] name code hp
      (fun l hl c => hothers l (List.mem_append_right _ hl) c)
  · intro k v hv
    rcases foldl_get?_origin _ _ k v hv with h0 | h1
    · exact absurd h0 (by simp [GoMap.get?])
    · exact h1
  · exact foldl_filter_valid _ _

/-- Witness of C1: in the sample table the name `广州` is on one valid line,
so it is mapped to the code of that line. -/
theorem readAreaCodes_keys_and_pairs_witness :
    (mkEnv (.ok sampleTable) (.getFailed []) [] []).readFile "tqdm.txt".toList = .ok sampleTable ∧
      ∃ m, (readAreaCodes (mkEnv (.ok sampleTable) (.getFailed []) [] []) "tqdm.txt".toList).1
          = .ok m ∧
        m.get? "广州".toList = some "101280101".toList ∧
        ¬ (m.get? "上海".toList).isSome := by
  refine ⟨rfl, ?_⟩
  obtain ⟨m, hm, hkeys, hpair, _, _⟩ :=
    readAreaCodes_keys_and_pairs (mkEnv (.ok sampleTable) (.getFailed []) [] [])
      "tqdm.txt".toList sampleTable rfl
  refine ⟨m, hm, ?_, ?_⟩
  · exact hpair ["北京 = 101010100\r".toList, "# codes".toList, "上海 = 1 = 2".toList]
      ["北京 = 101010200".toList, []] "广州 = 101280101".toList _ _ (by decide) (by decide)
      (fun l hl c => ne_pair_of _ _
        ((by decide : ∀ l ∈ ["北京 = 101010100\r".toList, "# codes".toList,
            "上海 = 1 = 2".toList, "北京 = 101010200".toList, []],
          (Split (TrimSuffix l "\r".toList) " = ".toList).length ≠ 2 ∨
            (Split (TrimSuffix l "\r".toList) " = ".toList).head? ≠ some "广州".toList) l hl) c)
  · rw [hkeys]
    rintro ⟨l, hl, c, hc⟩
    exact ne_pair_of _ _
      ((by decide : ∀ l ∈ Split sampleTable "\n".toList,
        (Split (TrimSuffix l "\r".toList) " = ".toList).length ≠ 2 ∨
          (Split (TrimSuffix l "\r".toList) " = ".toList).head? ≠ some "上海".toList) l hl) c hc

/-- C2: when several valid lines carry the same name, `readAreaCodes` maps the
name to the code of the last of them: if a valid line with that name has no
valid line with the same name after it, the map holds its code, and so none of
the different codes of the earlier lines. -/
theorem readAreaCodes_last_wins (env : Env) (filename content : GoString)
    (hread : env.readFile filename = .ok content)
    (pre post : List GoString) (line name code : GoString)
    (hsplit : Split content "\n".toList = pre ++ line :: post)
    (hline : Split (TrimSuffix line "\r".toList) " = ".toList = [name, code])
    (hlast : ∀ l ∈ post, ∀ c, Split (TrimSuffix l "\r".toList) " = ".toList ≠ [name, c]) :
    ∃ m, (readAreaCodes env filename).1 = .ok m ∧ m.get? name = some code ∧
      ∀ l ∈ pre, ∀ c, Split (TrimSuffix l "\r".toList) " = ".toList = [name, c] →
        c ≠ code → m.get? name ≠ some c := by
  have hget : (parseAreaCodes content).get? name = some code := by
    unfold parseAreaCodes
    rw [hsplit]
    exact foldl_get?_of_last pre post line [] name code hline hlast
  refine ⟨parseAreaCodes content, by simp [readAreaCodes, hread], hget, ?_⟩
  intro l _ c _ hne h
  rw [hget] at h
  exact hne (Option.some.inj h).symm

/-- Witness of C2: in the sample table `北京` is on the first and on the last
valid line, and the code of the last one is stored. -/
theorem readAreaCodes_last_wins_witness :
    ∃ m, (readAreaCodes (mkEnv (.ok sampleTable) (.getFailed []) [] []) "tqdm.txt".toList).1
        = .ok m ∧
      m.get? "北京".toList = some "101010200".toList ∧
      m.get? "北京".toList ≠ some "101010100".toList := by
  obtain ⟨m, hm, hget, hearlier⟩ :=
    readAreaCodes_last_wins (mkEnv (.ok sampleTable) (.getFailed []) [] [])
      "tqdm.txt".toList sampleTable rfl
      ["北京 = 101010100\r".toList, "# codes".toList, "上海 = 1 = 2".toList,
        "广州 = 101280101".toList]
      [[]] "北京 = 101010200".toList "北京".toList "101010200".toList
      (by decide) (by decide)
      (fun l hl c => ne_pair_of _ _
        ((by decide : ∀ l ∈ [([] : GoString)],
          (Split (TrimSuffix l "\r".toList) " = ".toList).length ≠ 2 ∨
            (Split (TrimSuffix l "\r".toList) " = ".toList).head? ≠ some "北京".toList) l hl) c)
  exact ⟨m, hm, hget,
    hearlier "北京 = 101010100\r".toList (by decide) "101010100".toList (by decide) (by decide)⟩

/-- Counterexample to C9: a line that ends with two carriage returns keeps
one of them in its code. -/
theorem readAreaCodes_code_keeps_carriage_return :
    (readAreaCodes (mkEnv (.ok "a = b\r\r\n".toList) (.getFailed []) [] []) "tqdm.txt".toList).1
        = .ok [("a".toList, "b\r".toList)] ∧
      GoMap.get? [("a".toList, "b\r".toList)] "a".toList = some "b\r".toList ∧
      HasSuffix "b\r".toList "\r".toList = true := by
  decide

/-- C9, amended: when no line of the table text ends with two carriage
returns, no code stored by `readAreaCodes` ends with a carriage return. -/
theorem readAreaCodes_codes_without_carriage_return (env : Env) (filename content : GoString)
    (hread : env.readFile filename = .ok content)
    (hlines : ∀ line ∈ Split content "\n".toList, HasSuffix line "\r\r".toList = false) :
    ∃ m, (readAreaCodes env filename).1 = .ok m ∧
      ∀ k v, m.get? k = some v → HasSuffix v "\r".toList = false := by
  refine ⟨parseAreaCodes content, by simp [readAreaCodes, hread], ?_⟩
  intro k v hv
  rcases foldl_get?_origin _ _ k v hv with h0 | ⟨l, hl, hp⟩
  · exact absurd h0 (by simp [GoMap.get?])
  · cases hs : HasSuffix v "\r".toList with
    | false => rfl
    | true =>
      have := code_suffix_of_lineParts l k v hp hs
      rw [hlines l hl] at this
      exact absurd this (by simp)

/-- Witness of C9, amended: the sample table has one carriage return at most
at the end of a line. -/
theorem readAreaCodes_codes_without_carriage_return_witness :
    (∀ line ∈ Split sampleTable "\n".toList, HasSuffix line "\r\r".toList = false) ∧
      ∃ m, (readAreaCodes (mkEnv (.ok sampleTable) (.getFailed []) [] []) "tqdm.txt".toList).1
          = .ok m ∧
        ∀ k v, m.get? k = some v → HasSuffix v "\r".toList = false :=
  ⟨by decide,
    readAreaCodes_codes_without_carriage_return (mkEnv (.ok sampleTable) (.getFailed []) [] [])
      "tqdm.txt".toList sampleTable rfl (by decide)⟩

/-! ## Lemmas on the extraction -/

theorem extractFields_eq (isHan : Char → Bool) (cityName v : GoString) :
    extractFields isHan cityName v
      = GoMap.set
          (if (FindStringSubmatch (reWeather isHan) v).length > 2 then
            GoMap.set
              (GoMap.set
                (GoMap.set (GoMap.set [] "city".toList cityName) "date".toList
                  (FindString reDate v))
                "weekday".toList ((FindStringSubmatch (reWeather isHan) v).getD 1 []))
              "weather".toList ((FindStringSubmatch (reWeather isHan) v).getD 2 [])
          else
            GoMap.set (GoMap.set [] "city".toList cityName) "date".toList (FindString reDate v))
          "temperature".toList (FindString reTemperature v) := rfl

theorem extractFields_city (isHan : Char → Bool) (cityName v : GoString) :
    (extractFields isHan cityName v).get? "city".toList = some cityName := by
  rw [extractFields_eq]
  split <;> simp [GoMap.get?_set, GoMap.get?_nil]

theorem extractFields_date (isHan : Char → Bool) (cityName v : GoString) :
    (extractFields isHan cityName v).get? "date".toList = some (FindString reDate v) := by
  rw [extractFields_eq]
  split <;> simp [GoMap.get?_set, GoMap.get?_nil]

theorem extractFields_temperature (isHan : Char → Bool) (cityName v : GoString) :
    (extractFields isHan cityName v).get? "temperature".toList
      = some (FindString reTemperature v) := by
  rw [extractFields_eq, GoMap.get?_set_self]

theorem extractFields_weekday (isHan : Char → Bool) (cityName v : GoString) :
    (extractFields isHan cityName v).get? "weekday".toList
      = if (FindStringSubmatch (reWeather isHan) v).length > 2 then
          some ((FindStringSubmatch (reWeather isHan) v).getD 1 [])
        else none := by
  rw [extractFields_eq]
  split <;> simp [GoMap.get?_set, GoMap.get?_nil]

theorem extractFields_weather (isHan : Char → Bool) (cityName v : GoString) :
    (extractFields isHan cityName v).get? "weather".toList
      = if (FindStringSubmatch (reWeather isHan) v).length > 2 then
          some ((FindStringSubmatch (reWeather isHan) v).getD 2 [])
        else none := by
  rw [extractFields_eq]
  split <;> simp [GoMap.get?_set, GoMap.get?_nil]

theorem getWeather_document (env : Env) (cityName dm v : GoString)
    (h : env.httpGet (weatherURL dm) = .document v) :
    (getWeather env cityName dm).1 = .ok (extractFields env.isHan cityName v) := by
  simp [getWeather, h]

/-- A class with the five values that `pinHan` writes out is `pinHan` of
itself. -/
theorem eq_pinHan (isHan : Char → Bool) (hHan : ∀ c ∈ "多云转晴".toList, isHan c = true)
    (hsp : isHan ' ' = false) : isHan = pinHan isHan := by
  funext c
  unfold pinHan
  by_cases h1 : c ∈ "多云转晴".toList
  · rw [if_pos h1]
    exact hHan c h1
  · rw [if_neg h1]
    by_cases h2 : c = ' '
    · rw [if_pos h2, h2]
      exact hsp
    · rw [if_neg h2]

/-- The weekday and weather found in the example value, for every class
`\p{Han}` that has `多`, `云`, `转`, `晴` and has not the space. -/
theorem FindStringSubmatch_sampleTitle (isHan : Char → Bool)
    (hHan : ∀ c ∈ "多云转晴".toList, isHan c = true) (hsp : isHan ' ' = false) :
    FindStringSubmatch (reWeather isHan) "10月5日14时 周三 多云转晴 20/28°C".toList
      = ["周三 多云转晴".toList, "周三".toList, "多云转晴".toList] := by
  rw [eq_pinHan isHan hHan hsp]
  rfl

/-- The weekday and weather found in the example value without date. -/
theorem FindStringSubmatch_sampleTitleNoDate (isHan : Char → Bool)
    (hHan : ∀ c ∈ "多云转晴".toList, isHan c = true) (hsp : isHan ' ' = false) :
    FindStringSubmatch (reWeather isHan) "周三 多云转晴 20/28°C".toList
      = ["周三 多云转晴".toList, "周三".toList, "多云转晴".toList] := by
  rw [eq_pinHan isHan hHan hsp]
  rfl

theorem FindString_of_noMatch (r : Regex) (s : GoString) (h : NoMatch r s) :
    FindString r s = [] := by
  simp [FindString, (Regex.search_eq_none_iff r s).2 h]

theorem FindString_leftmost (r : Regex) (s : GoString) (h : ¬ NoMatch r s) :
    ∃ pre, IsLeftmostMatch r s pre (FindString r s) := by
  cases hs : r.search s with
  | none => exact absurd ((Regex.search_eq_none_iff r s).1 hs) h
  | some y =>
    obtain ⟨m, caps⟩ := y
    obtain ⟨pre, hleft, _⟩ := Regex.search_sound r s m caps hs
    exact ⟨pre, by simpa [FindString, hs] using hleft⟩

theorem FindStringSubmatch_of_noMatch (r : Regex) (s : GoString) (h : NoMatch r s) :
    FindStringSubmatch r s = [] := by
  simp [FindStringSubmatch, (Regex.search_eq_none_iff r s).2 h]

/-- The captures of a match of `reWeather`: group 1 is `周` and one more
character, group 2 what follows the white space. -/
theorem reWeather_captures (isHan : Char → Bool) (m : GoString) (caps : Caps)
    (h : (reWeather isHan).Captures m [] caps) :
    ∃ x ws g2, m = ['周', x] ++ ws ++ g2 ∧ isDot x = true ∧ (∀ c ∈ ws, isSpace c = true) ∧
      (reWeatherGroup isHan).Matches g2 ∧ caps = [(2, g2), (1, ['周', x])] := by
  simp only [reWeather, reWeekdayGroup, Regex.Captures, lit] at h
  obtain ⟨u, v, mid, rfl, ⟨mid1, ⟨u1, u2, mid2, rfl, ⟨⟨a, rfl, ha⟩, rfl⟩, ⟨⟨x, rfl, hx⟩, rfl⟩⟩, rfl⟩,
    ws, g2, mid3, rfl, ⟨hws, rfl⟩, mid4, hg2, rfl⟩ := h
  have ha' : a = '周' := by simpa using ha
  subst ha'
  have hm : (reWeatherGroup isHan).Matches g2 :=
    Regex.Matches_of_Captures (reWeatherGroup isHan) g2 [(1, ['周', x])] mid4 hg2
  have hmid : mid4 = [(1, ['周', x])] := by
    obtain ⟨_, _, _, _, ⟨_, rfl⟩, _, _, _, _, hq, ⟨_, rfl⟩⟩ := hg2
    rcases hq with ⟨_, rfl⟩ | ⟨_, rfl⟩
    · rfl
    · rfl
  subst hmid
  exact ⟨x, ws, g2, by simp, hx, hws, hm, rfl⟩

/-- A text matched by the second group is not empty, and, when `转` is in the
class `\p{Han}`, all its characters are in the class `[\p{Han}\w]`. -/
theorem reWeatherGroup_matches (isHan : Char → Bool) (g : GoString)
    (h : (reWeatherGroup isHan).Matches g) :
    g ≠ [] ∧ (isHan '转' = true → ∀ c ∈ g, isHanOrWord isHan c = true) := by
  simp only [reWeatherGroup, Regex.Matches, lit, beq_iff_eq] at h
  obtain ⟨u, _, rfl, ⟨hne, hu⟩, q, w, rfl, hq, hw⟩ := h
  refine ⟨by simp [hne], ?_⟩
  intro hz c hc
  simp only [List.mem_append] at hc
  rcases hc with hc | hc | hc
  · exact hu c hc
  · rcases hq with rfl | ⟨x, rfl, rfl⟩
    · exact absurd hc (by simp)
    · simp only [List.mem_singleton] at hc
      subst hc
      simp [isHanOrWord, hz]
  · exact hw c hc

/-- The result of `FindStringSubmatch` for `reWeather` when there is a match:
the leftmost match and its two groups; the second group is matched by
`[\p{Han}\w]+转?[\p{Han}\w]*` and the text does not continue it with a
character of the class `[\p{Han}\w]`. -/
theorem FindStringSubmatch_reWeather (isHan : Char → Bool) (s : GoString)
    (h : ¬ NoMatch (reWeather isHan) s) :
    ∃ pre x ws g2 post, s = pre ++ (['周', x] ++ ws ++ g2) ++ post ∧
      IsLeftmostMatch (reWeather isHan) s pre (['周', x] ++ ws ++ g2) ∧
      isDot x = true ∧ (∀ c ∈ ws, isSpace c = true) ∧
      (reWeatherGroup isHan).Matches g2 ∧ g2 ≠ [] ∧
      (isHan '转' = true → ∀ c ∈ g2, isHanOrWord isHan c = true) ∧
      (∀ c ∈ post.head?, isHanOrWord isHan c = false) ∧
      FindStringSubmatch (reWeather isHan) s = [['周', x] ++ ws ++ g2, ['周', x], g2] := by
  cases hs : (reWeather isHan).search s with
  | none => exact absurd ((Regex.search_eq_none_iff _ s).1 hs) h
  | some y =>
    obtain ⟨m, caps⟩ := y
    obtain ⟨pre, s0, hs0, hm, hleft⟩ := Regex.search_matchHere _ s _ hs
    obtain ⟨rest, hrest, hcap⟩ := Regex.matchHere_sound _ s0 m caps hm
    obtain ⟨rest', hrest', hhead⟩ :=
      Regex.matchHere_greedy (isHanOrWord isHan) (reWeather isHan) rfl s0 m caps hm
    have hrr : rest' = rest := List.append_cancel_left (hrest'.symm.trans hrest)
    subst hrr
    obtain ⟨x, ws, g2, rfl, hx, hws, hg2, rfl⟩ := reWeather_captures isHan m caps hcap
    have hg := reWeatherGroup_matches isHan g2 hg2
    refine ⟨pre, x, ws, g2, rest', by rw [hs0, hrest]; simp,
      ⟨⟨rest', by rw [hs0, hrest]; simp⟩,
        Regex.Matches_of_Captures _ _ _ _ hcap, hleft⟩, hx, hws, hg2, hg.1, hg.2, hhead, ?_⟩
    simp only [FindStringSubmatch, hs]
    rfl

theorem reDate_matches_iff (u : GoString) : reDate.Matches u ↔ IsDateText u := by
  simp only [reDate, Regex.Matches, lit, IsDateText, beq_iff_eq]
  constructor
  · rintro ⟨d1, _, rfl, ⟨h1, a1⟩, _, _, rfl, ⟨_, rfl, rfl⟩, d2, _, rfl, ⟨h2, a2⟩, _, _, rfl,
      ⟨_, rfl, rfl⟩, d3, _, rfl, ⟨h3, a3⟩, _, rfl, rfl⟩
    exact ⟨d1, d2, d3, h1, h2, h3, a1, a2, a3, by simp⟩
  · rintro ⟨d1, d2, d3, h1, h2, h3, a1, a2, a3, rfl⟩
    exact ⟨d1, _, by simp only [List.append_assoc], ⟨h1, a1⟩, _, _, rfl, ⟨_, rfl, rfl⟩,
      d2, _, rfl, ⟨h2, a2⟩, _, _, rfl, ⟨_, rfl, rfl⟩, d3, _, rfl, ⟨h3, a3⟩, _, rfl, rfl⟩

theorem reTemperature_matches_iff (u : GoString) :
    reTemperature.Matches u ↔ IsTemperatureText u := by
  simp only [reTemperature, Regex.Matches, lit, IsTemperatureText, beq_iff_eq]
  constructor
  · rintro ⟨d1, _, rfl, ⟨h1, a1⟩, _, _, rfl, ⟨_, rfl, rfl⟩, d2, _, rfl, ⟨h2, a2⟩, _, _, rfl,
      ⟨_, rfl, rfl⟩, _, rfl, rfl⟩
    exact ⟨d1, d2, h1, h2, a1, a2, by simp⟩
  · rintro ⟨d1, d2, h1, h2, a1, a2, rfl⟩
    exact ⟨d1, _, by simp, ⟨h1, a1⟩, _, _, rfl, ⟨_, rfl, rfl⟩,
      d2, _, rfl, ⟨h2, a2⟩, _, _, rfl, ⟨_, rfl, rfl⟩, _, rfl, rfl⟩

/-- The date found in a text that has one: the one leftmost match of the date
pattern. -/
theorem FindString_reDate (s : GoString) (h : ¬ NoMatch reDate s) :
    ∃ pre, IsLeftmostMatch reDate s pre (FindString reDate s) ∧
      IsDateText (FindString reDate s) ∧
      ∀ pre' m', IsLeftmostMatch reDate s pre' m' → pre' = pre ∧ m' = FindString reDate s := by
  obtain ⟨pre, hl⟩ := FindString_leftmost _ _ h
  refine ⟨pre, hl, (reDate_matches_iff _).1 hl.2.1, ?_⟩
  intro pre' m' hl'
  obtain ⟨hpre, post, post', hpost⟩ := IsLeftmostMatch_pre_unique _ _ _ _ _ _ hl hl'
  exact ⟨hpre, IsDateText_unique _ _ _ _ ((reDate_matches_iff _).1 hl'.2.1)
    ((reDate_matches_iff _).1 hl.2.1) hpost.symm⟩

/-- The temperature found in a text that has one: the one leftmost match of
the temperature pattern. -/
theorem FindString_reTemperature (s : GoString) (h : ¬ NoMatch reTemperature s) :
    ∃ pre, IsLeftmostMatch reTemperature s pre (FindString reTemperature s) ∧
      IsTemperatureText (FindString reTemperature s) ∧
      ∀ pre' m', IsLeftmostMatch reTemperature s pre' m' →
        pre' = pre ∧ m' = FindString reTemperature s := by
  obtain ⟨pre, hl⟩ := FindString_leftmost _ _ h
  refine ⟨pre, hl, (reTemperature_matches_iff _).1 hl.2.1, ?_⟩
  intro pre' m' hl'
  obtain ⟨hpre, post, post', hpost⟩ := IsLeftmostMatch_pre_unique _ _ _ _ _ _ hl hl'
  exact ⟨hpre, IsTemperatureText_unique _ _ _ _ ((reTemperature_matches_iff _).1 hl'.2.1)
    ((reTemperature_matches_iff _).1 hl.2.1) hpost.symm⟩

/-! ## The extraction claims -/

/-- C5: when the page is fetched and parsed, `getWeather` returns a record
that, for the attribute value `10月5日14时 周三 多云转晴 20/28°C`, has date
`10月5日14时` and temperature `20/28°C`, and, for every class `\p{Han}` that
has `多`, `云`, `转`, `晴` and has not the space, weekday `周三` and weather
`多云转晴`.
For every attribute value and every class `\p{Han}`: date is the empty string
when the date pattern has no match and otherwise the leftmost match of it, a
text of the form digits, `月`, digits, `日`, digits, `时`, and the only leftmost
match; likewise temperature with its pattern, a text of the form digits, `/`,
digits, `°C`; weekday and weather are absent when the weekday/weather pattern
has no match and otherwise the two groups of its leftmost match: `周` with the
character after it, and, after white space, a text matched by
`[\p{Han}\w]+转?[\p{Han}\w]*` that stops in front of the first character
outside the class `[\p{Han}\w]`. -/
theorem getWeather_extracts_fields (env : Env) (cityName dm inputValue : GoString)
    (hfetch : env.httpGet (weatherURL dm) = .document inputValue) :
    ∃ info, (getWeather env cityName dm).1 = .ok info ∧
      (inputValue = "10月5日14时 周三 多云转晴 20/28°C".toList →
        info.get? "date".toList = some "10月5日14时".toList ∧
        info.get? "temperature".toList = some "20/28°C".toList ∧
        ((∀ c ∈ "多云转晴".toList, env.isHan c = true) → env.isHan ' ' = false →
          info.get? "weekday".toList = some "周三".toList ∧
          info.get? "weather".toList = some "多云转晴".toList)) ∧
      ((NoMatch reDate inputValue ∧ info.get? "date".toList = some []) ∨
        ∃ pre m, IsLeftmostMatch reDate inputValue pre m ∧ IsDateText m ∧
          info.get? "date".toList = some m ∧
          ∀ pre' m', IsLeftmostMatch reDate inputValue pre' m' → pre' = pre ∧ m' = m) ∧
      ((NoMatch reTemperature inputValue ∧ info.get? "temperature".toList = some []) ∨
        ∃ pre m, IsLeftmostMatch reTemperature inputValue pre m ∧ IsTemperatureText m ∧
          info.get? "temperature".toList = some m ∧
          ∀ pre' m', IsLeftmostMatch reTemperature inputValue pre' m' → pre' = pre ∧ m' = m) ∧
      ((NoMatch (reWeather env.isHan) inputValue ∧ info.get? "weekday".toList = none ∧
          info.get? "weather".toList = none) ∨
        ∃ pre x ws g2 post, inputValue = pre ++ (['周', x] ++ ws ++ g2) ++ post ∧
          IsLeftmostMatch (reWeather env.isHan) inputValue pre (['周', x] ++ ws ++ g2) ∧
          isDot x = true ∧ (∀ c ∈ ws, isSpace c = true) ∧
          (reWeatherGroup env.isHan).Matches g2 ∧ g2 ≠ [] ∧
          (env.isHan '转' = true → ∀ c ∈ g2, isHanOrWord env.isHan c = true) ∧
          (∀ c ∈ post.head?, isHanOrWord env.isHan c = false) ∧
          info.get? "weekday".toList = some ['周', x] ∧ info.get? "weather".toList = some g2) := by
  refine ⟨extractFields env.isHan cityName inputValue,
    getWeather_document env cityName dm _ hfetch, ?_, ?_, ?_, ?_⟩
  · rintro rfl
    refine ⟨?_, ?_, ?_⟩
    · rw [extractFields_date]
      decide
    · rw [extractFields_temperature]
      decide
    · intro hHan hsp
      rw [extractFields_weekday, extractFields_weather,
        FindStringSubmatch_sampleTitle env.isHan hHan hsp]
      exact ⟨rfl, rfl⟩
  · rw [extractFields_date]
    by_cases h : NoMatch reDate inputValue
    · exact Or.inl ⟨h, by rw [FindString_of_noMatch _ _ h]⟩
    · obtain ⟨pre, hl, hform, huniq⟩ := FindString_reDate _ h
      exact Or.inr ⟨pre, _, hl, hform, rfl, huniq⟩
  · rw [extractFields_temperature]
    by_cases h : NoMatch reTemperature inputValue
    · exact Or.inl ⟨h, by rw [FindString_of_noMatch _ _ h]⟩
    · obtain ⟨pre, hl, hform, huniq⟩ := FindString_reTemperature _ h
      exact Or.inr ⟨pre, _, hl, hform, rfl, huniq⟩
  · rw [extractFields_weekday, extractFields_weather]
    by_cases h : NoMatch (reWeather env.isHan) inputValue
    · rw [FindStringSubmatch_of_noMatch _ _ h]
      exact Or.inl ⟨h, rfl, rfl⟩
    · obtain ⟨pre, x, ws, g2, post, hs, hl, hx, hws, hm, hne, hg2, hpost, hsub⟩ :=
        FindStringSubmatch_reWeather env.isHan _ h
      rw [hsub]
      exact Or.inr ⟨pre, x, ws, g2, post, hs, hl, hx, hws, hm, hne, hg2, hpost, rfl, rfl⟩

/-- Witness of C5: the record for the example value. -/
theorem getWeather_extracts_fields_witness :
    ∃ info,
      (getWeather (mkEnv (.ok sampleTable) (.document sampleTitle) [] []) "北京".toList
          "101010200".toList).1 = .ok info ∧
      info.get? "date".toList = some "10月5日14时".toList ∧
      info.get? "weekday".toList = some "周三".toList ∧
      info.get? "weather".toList = some "多云转晴".toList ∧
      info.get? "temperature".toList = some "20/28°C".toList := by
  obtain ⟨info, hinfo, hex, _⟩ :=
    getWeather_extracts_fields (mkEnv (.ok sampleTable) (.document sampleTitle) [] [])
      "北京".toList "101010200".toList sampleTitle rfl
  obtain ⟨hdate, htemp, hgroups⟩ := hex rfl
  exact ⟨info, hinfo, hdate, (hgroups (by decide) (by decide)).1,
    (hgroups (by decide) (by decide)).2, htemp⟩

/-- C6: when the page is fetched and parsed, the record of `getWeather` has
neither `weekday` nor `weather` when the weekday/weather pattern has no match
in the attribute value, and has both when it has a match, so it never has one
of the two without the other; `city`, `date` and `temperature` are there in
both cases.  This holds for every class `\p{Han}`. -/
theorem getWeather_weekday_weather_together (env : Env) (cityName dm inputValue : GoString)
    (hfetch : env.httpGet (weatherURL dm) = .document inputValue) :
    ∃ info, (getWeather env cityName dm).1 = .ok info ∧
      (NoMatch (reWeather env.isHan) inputValue →
        info.get? "weekday".toList = none ∧ info.get? "weather".toList = none) ∧
      (¬ NoMatch (reWeather env.isHan) inputValue →
        (info.get? "weekday".toList).isSome ∧ (info.get? "weather".toList).isSome) ∧
      ((info.get? "weekday".toList).isSome ↔ (info.get? "weather".toList).isSome) ∧
      info.get? "city".toList = some cityName ∧
      (info.get? "date".toList).isSome ∧ (info.get? "temperature".toList).isSome := by
  refine ⟨extractFields env.isHan cityName inputValue,
    getWeather_document env cityName dm _ hfetch, ?_, ?_, ?_, extractFields_city _ _ _, ?_, ?_⟩
  · intro h
    rw [extractFields_weekday, extractFields_weather, FindStringSubmatch_of_noMatch _ _ h]
    exact ⟨rfl, rfl⟩
  · intro h
    obtain ⟨_, _, _, _, _, _, _, _, _, _, _, _, _, hsub⟩ :=
      FindStringSubmatch_reWeather env.isHan _ h
    rw [extractFields_weekday, extractFields_weather, hsub]
    exact ⟨rfl, rfl⟩
  · rw [extractFields_weekday, extractFields_weather]
    split <;> simp
  · rw [extractFields_date]
    rfl
  · rw [extractFields_temperature]
    rfl

/-- Witness of C6: an attribute value without weekday gives a record without
the two keys. -/
theorem getWeather_weekday_weather_together_witness :
    ∃ info,
      (getWeather (mkEnv (.ok sampleTable) (.document sampleTitleNoWeekday) [] []) "北京".toList
          "101010200".toList).1 = .ok info ∧
      info.get? "weekday".toList = none ∧ info.get? "weather".toList = none ∧
      info.get? "city".toList = some "北京".toList ∧
      info.get? "date".toList = some "10月5日14时".toList := by
  obtain ⟨info, hinfo, hnone, _, _, hcity, _, _⟩ :=
    getWeather_weekday_weather_together
      (mkEnv (.ok sampleTable) (.document sampleTitleNoWeekday) [] [])
      "北京".toList "101010200".toList sampleTitleNoWeekday rfl
  have hno : NoMatch (reWeather sampleHan) sampleTitleNoWeekday :=
    (Regex.search_eq_none_iff _ _).1 (by decide)
  refine ⟨info, hinfo, (hnone hno).1, (hnone hno).2, hcity, ?_⟩
  have := Except.ok.inj (hinfo.symm.trans
    (getWeather_document (mkEnv (.ok sampleTable) (.document sampleTitleNoWeekday) [] [])
      "北京".toList "101010200".toList sampleTitleNoWeekday rfl))
  subst this
  decide

/-- C8: when the page is fetched and parsed and no part of the attribute value
has the form digits, `月`, digits, `日`, digits, `时`, the record of `getWeather`
has the empty string as date, and the other fields are what their own patterns
yield on the value: temperature is the result of its pattern, weekday and
weather are absent when the result of their pattern is empty and its two
groups otherwise; for the value `周三 多云转晴 20/28°C` date is empty while
temperature is `20/28°C` and, for every class `\p{Han}` that has `多`, `云`,
`转`, `晴` and has not the space, weekday is `周三` and weather `多云转晴`. -/
theorem getWeather_date_independent (env : Env) (cityName dm inputValue : GoString)
    (hfetch : env.httpGet (weatherURL dm) = .document inputValue)
    (hnodate : ∀ pre u post, inputValue = pre ++ u ++ post → ¬ IsDateText u) :
    ∃ info, (getWeather env cityName dm).1 = .ok info ∧
      info.get? "date".toList = some [] ∧
      info.get? "temperature".toList = some (FindString reTemperature inputValue) ∧
      (FindStringSubmatch (reWeather env.isHan) inputValue = [] →
        info.get? "weekday".toList = none ∧ info.get? "weather".toList = none) ∧
      (∀ m g1 g2, FindStringSubmatch (reWeather env.isHan) inputValue = [m, g1, g2] →
        info.get? "weekday".toList = some g1 ∧ info.get? "weather".toList = some g2) ∧
      (inputValue = "周三 多云转晴 20/28°C".toList →
        info.get? "temperature".toList = some "20/28°C".toList ∧
        ((∀ c ∈ "多云转晴".toList, env.isHan c = true) → env.isHan ' ' = false →
          info.get? "weekday".toList = some "周三".toList ∧
          info.get? "weather".toList = some "多云转晴".toList)) := by
  have hno : NoMatch reDate inputValue := fun pre u post hs hu =>
    hnodate pre u post hs ((reDate_matches_iff u).1 hu)
  refine ⟨extractFields env.isHan cityName inputValue,
    getWeather_document env cityName dm _ hfetch, ?_, extractFields_temperature _ _ _, ?_, ?_, ?_⟩
  · rw [extractFields_date, FindString_of_noMatch _ _ hno]
  · intro h
    rw [extractFields_weekday, extractFields_weather, h]
    exact ⟨rfl, rfl⟩
  · intro m g1 g2 h
    rw [extractFields_weekday, extractFields_weather, h]
    exact ⟨rfl, rfl⟩
  · rintro rfl
    refine ⟨?_, ?_⟩
    · rw [extractFields_temperature]
      decide
    · intro hHan hsp
      rw [extractFields_weekday, extractFields_weather,
        FindStringSubmatch_sampleTitleNoDate env.isHan hHan hsp]
      exact ⟨rfl, rfl⟩

/-- Witness of C8: the value `周三 多云转晴 20/28°C` has no date, and the other
three fields are filled. -/
theorem getWeather_date_independent_witness :
    (∀ pre u post, sampleTitleNoDate = pre ++ u ++ post → ¬ IsDateText u) ∧
      ∃ info,
        (getWeather (mkEnv (.ok sampleTable) (.document sampleTitleNoDate) [] []) "北京".toList
            "101010200".toList).1 = .ok info ∧
        info.get? "date".toList = some [] ∧
        info.get? "weekday".toList = some "周三".toList ∧
        info.get? "weather".toList = some "多云转晴".toList ∧
        info.get? "temperature".toList = some "20/28°C".toList := by
  have hno : ∀ pre u post, sampleTitleNoDate = pre ++ u ++ post → ¬ IsDateText u :=
    fun pre u post hs hu =>
      (Regex.search_eq_none_iff reDate sampleTitleNoDate).1 (by decide) pre u post hs
        ((reDate_matches_iff u).2 hu)
  obtain ⟨info, hinfo, hdate, _, _, _, hex⟩ :=
    getWeather_date_independent (mkEnv (.ok sampleTable) (.document sampleTitleNoDate) [] [])
      "北京".toList "101010200".toList sampleTitleNoDate rfl hno
  obtain ⟨htemp, hgroups⟩ := hex rfl
  exact ⟨hno, info, hinfo, hdate, (hgroups (by decide) (by decide)).1,
    (hgroups (by decide) (by decide)).2, htemp⟩

/-! ## Lemmas on the handlers -/

theorem readAreaCodes_ok (env : Env) (filename content : GoString)
    (h : env.readFile filename = .ok content) :
    readAreaCodes env filename = (.ok (parseAreaCodes content), [Effect.readFile filename]) := by
  simp [readAreaCodes, h]

theorem readAreaCodes_error (env : Env) (filename err : GoString)
    (h : env.readFile filename = .error err) :
    readAreaCodes env filename = (.error err, [Effect.readFile filename]) := by
  simp [readAreaCodes, h]

theorem handleGet_of_table (env : Env) (r : Request) (content : GoString)
    (hread : env.readFile "tqdm.txt".toList = .ok content)
    (hname : r.queryGet "area".toList ≠ []) :
    handleGet env r
      = lookupResponse env (parseAreaCodes content) [Effect.readFile "tqdm.txt".toList]
          (r.queryGet "area".toList) := by
  unfold handleGet
  simp only [if_neg hname, readAreaCodes_ok env _ content hread]
  rfl

theorem handlePost_of_table (env : Env) (r : Request) (content body : GoString)
    (requestData : GoMap)
    (hread : env.readFile "tqdm.txt".toList = .ok content)
    (hbody : r.body = .ok body) (hjson : env.jsonUnmarshal body = .ok requestData) :
    handlePost env r
      = lookupResponse env (parseAreaCodes content) [Effect.readFile "tqdm.txt".toList]
          ((requestData.get? "area".toList).getD []) := by
  unfold handlePost
  simp only [readAreaCodes_ok env _ content hread, hbody, hjson]
  rfl

theorem handleGet_of_no_table (env : Env) (r : Request) (err : GoString)
    (hread : env.readFile "tqdm.txt".toList = .error err)
    (hname : r.queryGet "area".toList ≠ []) :
    handleGet env r
      = (httpError "读取文件失败".toList 500, [Effect.readFile "tqdm.txt".toList]) := by
  unfold handleGet
  simp only [if_neg hname, readAreaCodes_error env _ err hread]

theorem handlePost_of_no_table (env : Env) (r : Request) (err : GoString)
    (hread : env.readFile "tqdm.txt".toList = .error err) :
    handlePost env r
      = (httpError "读取文件失败".toList 500, [Effect.readFile "tqdm.txt".toList]) := by
  unfold handlePost
  simp only [readAreaCodes_error env _ err hread]

theorem getWeather_trace (env : Env) (cityName dm : GoString) :
    (getWeather env cityName dm).2 = [Effect.httpGet (weatherURL dm)] := by
  unfold getWeather
  cases h : env.httpGet (weatherURL dm) <;> simp only [h]

theorem lookupResponse_trace (env : Env) (areaCodes : GoMap) (t : List Effect)
    (areaName areaCode : GoString) (h : areaCodes.get? areaName = some areaCode) :
    (lookupResponse env areaCodes t areaName).2 = t ++ [Effect.httpGet (weatherURL areaCode)] := by
  unfold lookupResponse
  rw [h]
  simp only
  rw [← getWeather_trace env areaName areaCode]
  split <;> simp_all

theorem lookupResponse_trace_head (env : Env) (areaCodes : GoMap) (e : Effect)
    (areaName : GoString) : (lookupResponse env areaCodes [e] areaName).2.head? = some e := by
  cases h : areaCodes.get? areaName with
  | none => simp [lookupResponse, h]
  | some areaCode => rw [lookupResponse_trace env areaCodes [e] areaName areaCode h]; rfl

theorem lookupResponse_status_ne_400 (env : Env) (areaCodes : GoMap) (t : List Effect)
    (areaName : GoString) : (lookupResponse env areaCodes t areaName).1.status ≠ 400 := by
  unfold lookupResponse
  split
  · simp [httpError]
  · split <;> simp [httpError]

/-! ## The handler claims -/

/-- Counterexample to C3: the empty name is no key of the sample table, yet
`GET /weather?area=` is answered with 400, not with 404. -/
theorem handleGet_empty_absent_name_is_400 :
    (readAreaCodes (mkEnv (.ok sampleTable) (.getFailed []) [] []) "tqdm.txt".toList).1
        = .ok (parseAreaCodes sampleTable) ∧
      (parseAreaCodes sampleTable).get? [] = none ∧
      (handleGet (mkEnv (.ok sampleTable) (.getFailed []) [] []) (getRequest [])).1.status = 400 := by
  decide

/-- C3, amended: when the table file is readable and a name is no key of the
loaded table, `handlePost` with a JSON body whose `area` is that name answers
404 and `handleGet` with that name as `area` answers 404 when the name is not
empty; in both cases the only effect is the read of the table file, so
`getWeather` is not called. -/
theorem lookup_of_absent_name (env : Env) (rg rp : Request) (areaCodes : GoMap)
    (name body : GoString) (requestData : GoMap)
    (htable : (readAreaCodes env "tqdm.txt".toList).1 = .ok areaCodes)
    (habsent : areaCodes.get? name = none)
    (hquery : rg.queryGet "area".toList = name)
    (hbody : rp.body = .ok body) (hjson : env.jsonUnmarshal body = .ok requestData)
    (harea : requestData.get? "area".toList = some name) :
    (name ≠ [] →
      handleGet env rg
        = (httpError "找不到区号".toList 404, [Effect.readFile "tqdm.txt".toList])) ∧
    handlePost env rp
      = (httpError "找不到区号".toList 404, [Effect.readFile "tqdm.txt".toList]) ∧
    (httpError "找不到区号".toList 404).status = 404 := by
  cases hread : env.readFile "tqdm.txt".toList with
  | error err =>
    rw [readAreaCodes_error env _ err hread] at htable
    exact absurd htable (by simp)
  | ok content =>
    rw [readAreaCodes_ok env _ content hread] at htable
    have hc : parseAreaCodes content = areaCodes := Except.ok.inj htable
    refine ⟨?_, ?_, rfl⟩
    · intro hne
      rw [handleGet_of_table env rg content hread (by rw [hquery]; exact hne), hquery, hc]
      simp [lookupResponse, habsent]
    · rw [handlePost_of_table env rp content body requestData hread hbody hjson, harea, hc]
      simp [lookupResponse, habsent]

/-- Witness of C3, amended: `深圳` is not in the sample table. -/
theorem lookup_of_absent_name_witness :
    (handleGet (mkEnv (.ok sampleTable) (.document sampleTitle) absentBody
        [("area".toList, "深圳".toList)]) (getRequest "深圳".toList)).1.status = 404 ∧
      (handlePost (mkEnv (.ok sampleTable) (.document sampleTitle) absentBody
        [("area".toList, "深圳".toList)]) (postRequest absentBody)).2
        = [Effect.readFile "tqdm.txt".toList] := by
  obtain ⟨hget, hpost, _⟩ :=
    lookup_of_absent_name
      (mkEnv (.ok sampleTable) (.document sampleTitle) absentBody
        [("area".toList, "深圳".toList)])
      (getRequest "深圳".toList) (postRequest absentBody)
      (parseAreaCodes sampleTable) "深圳".toList absentBody
      [("area".toList, "深圳".toList)] rfl (by decide) (by decide) rfl (by decide) (by decide)
  rw [hget (by decide), hpost]
  exact ⟨rfl, rfl⟩

/-- C4, the code at the failing input: with an unreadable table file a POST
whose body is not valid JSON is answered with 500 and the message of the table
read, not with 400, because `handlePost` calls `readAreaCodes` before it looks
at the body; with a readable table file it answers 400, and the table file has
been read by then. -/
theorem handlePost_loads_table_before_body :
    (mkEnv (.error "open tqdm.txt".toList) (.getFailed []) sampleBody
        [("area".toList, "北京".toList)]).jsonUnmarshal malformedBody
        = .error "invalid character".toList ∧
      (handlePost (mkEnv (.error "open tqdm.txt".toList) (.getFailed []) sampleBody
        [("area".toList, "北京".toList)]) (postRequest malformedBody))
        = (httpError "读取文件失败".toList 500, [Effect.readFile "tqdm.txt".toList]) ∧
      (handlePost (mkEnv (.error "open tqdm.txt".toList) (.getFailed []) sampleBody
        [("area".toList, "北京".toList)]) (postRequest malformedBody)).1.status = 500 ∧
      (handlePost (mkEnv (.ok sampleTable) (.getFailed []) sampleBody
        [("area".toList, "北京".toList)]) (postRequest malformedBody))
        = (httpError "解析JSON数据失败".toList 400, [Effect.readFile "tqdm.txt".toList]) := by
  decide

/-- Counterexample to C7: an unreadable table file (SourceUnavailable) and a
transport error of the fetch (NetworkFailure) are answered with the same
status, 500, by both handlers. -/
theorem source_and_network_failure_share_status :
    lookupFailure (mkEnv (.error "open tqdm.txt".toList) (.getFailed []) sampleBody
        [("area".toList, "北京".toList)]) "北京".toList = some Failure.SourceUnavailable ∧
      lookupFailure (mkEnv (.ok sampleTable) (.getFailed "dial tcp".toList) sampleBody
        [("area".toList, "北京".toList)]) "北京".toList = some Failure.NetworkFailure ∧
      (handleGet (mkEnv (.error "open tqdm.txt".toList) (.getFailed []) sampleBody
        [("area".toList, "北京".toList)]) (getRequest "北京".toList)).1.status = 500 ∧
      (handleGet (mkEnv (.ok sampleTable) (.getFailed "dial tcp".toList) sampleBody
        [("area".toList, "北京".toList)]) (getRequest "北京".toList)).1.status = 500 ∧
      (handlePost (mkEnv (.error "open tqdm.txt".toList) (.getFailed []) sampleBody
        [("area".toList, "北京".toList)]) (postRequest sampleBody)).1.status = 500 ∧
      (handlePost (mkEnv (.ok sampleTable) (.getFailed "dial tcp".toList) sampleBody
        [("area".toList, "北京".toList)]) (postRequest sampleBody)).1.status = 500 := by
  decide

theorem lookupResponse_status_of_failure (env : Env) (content name : GoString) (kind : Failure)
    (t : List Effect)
    (hread : env.readFile "tqdm.txt".toList = .ok content)
    (hkind : lookupFailure env name = some kind) :
    (lookupResponse env (parseAreaCodes content) t name).1.status
      = if kind = Failure.AreaNotFound then 404 else 500 := by
  unfold lookupFailure at hkind
  unfold lookupResponse
  rw [hread] at hkind
  simp only at hkind
  cases hget : (parseAreaCodes content).get? name with
  | none =>
    rw [hget] at hkind
    simp only [Option.some.injEq] at hkind
    subst hkind
    rfl
  | some code =>
    rw [hget] at hkind
    simp only at hkind
    unfold getWeather
    cases hf : env.httpGet (weatherURL code) with
    | getFailed c =>
      rw [hf] at hkind
      simp only [Option.some.injEq] at hkind
      subst hkind
      simp [hf, httpError]
    | readFailed c =>
      rw [hf] at hkind
      simp only [Option.some.injEq] at hkind
      subst hkind
      simp [hf, httpError]
    | parseFailed c =>
      rw [hf] at hkind
      simp only [Option.some.injEq] at hkind
      subst hkind
      simp [hf, httpError]
    | document v => rw [hf] at hkind; exact absurd hkind (by simp)

/-- C7, amended: the handlers map the five failure kinds to two statuses:
AreaNotFound to 404 and each of SourceUnavailable, NetworkFailure, ReadFailure
and ParseFailure to 500, for `handleGet` with a non-empty name and for
`handlePost` with a JSON body whose `area` is the name. -/
theorem failure_kinds_status (env : Env) (rg rp : Request) (name body : GoString)
    (requestData : GoMap) (kind : Failure)
    (hkind : lookupFailure env name = some kind)
    (hquery : rg.queryGet "area".toList = name)
    (hbody : rp.body = .ok body) (hjson : env.jsonUnmarshal body = .ok requestData)
    (harea : requestData.get? "area".toList = some name) :
    (name ≠ [] →
      (handleGet env rg).1.status = if kind = Failure.AreaNotFound then 404 else 500) ∧
    (handlePost env rp).1.status = if kind = Failure.AreaNotFound then 404 else 500 := by
  cases hread : env.readFile "tqdm.txt".toList with
  | error err =>
    have hk : kind = Failure.SourceUnavailable := by
      unfold lookupFailure at hkind
      rw [hread] at hkind
      exact (Option.some.inj hkind).symm
    subst hk
    refine ⟨fun hne => ?_, ?_⟩
    · rw [handleGet_of_no_table env rg err hread (by rw [hquery]; exact hne)]
      rfl
    · rw [handlePost_of_no_table env rp err hread]
      rfl
  | ok content =>
    refine ⟨fun hne => ?_, ?_⟩
    · rw [handleGet_of_table env rg content hread (by rw [hquery]; exact hne), hquery]
      exact lookupResponse_status_of_failure env content name kind _ hread hkind
    · rw [handlePost_of_table env rp content body requestData hread hbody hjson, harea]
      exact lookupResponse_status_of_failure env content name kind _ hread hkind

/-- Witness of C7, amended: an unparsable page (ParseFailure) is answered with
500 by both handlers. -/
theorem failure_kinds_status_witness :
    lookupFailure (mkEnv (.ok sampleTable) (.parseFailed "EOF".toList) sampleBody
        [("area".toList, "北京".toList)]) "北京".toList = some Failure.ParseFailure ∧
      (handleGet (mkEnv (.ok sampleTable) (.parseFailed "EOF".toList) sampleBody
        [("area".toList, "北京".toList)]) (getRequest "北京".toList)).1.status = 500 ∧
      (handlePost (mkEnv (.ok sampleTable) (.parseFailed "EOF".toList) sampleBody
        [("area".toList, "北京".toList)]) (postRequest sampleBody)).1.status = 500 := by
  obtain ⟨hget, hpost⟩ :=
    failure_kinds_status
      (mkEnv (.ok sampleTable) (.parseFailed "EOF".toList) sampleBody
        [("area".toList, "北京".toList)])
      (getRequest "北京".toList) (postRequest sampleBody) "北京".toList sampleBody
      [("area".toList, "北京".toList)] Failure.ParseFailure (by decide) (by decide) rfl
      (by decide) (by decide)
  exact ⟨by decide, hget (by decide), hpost⟩

/-- C10: for a non-empty area name, `handleGet` with the name as `area` and
`handlePost` with a JSON body whose `area` is the name give the same response
(status and body) and the same effects, whatever the table file and the fetch
do; for the empty or missing name `handleGet` answers 400 without any effect,
while `handlePost` reads the table file first and never answers 400: it
answers 500 when the file is unreadable and otherwise looks the empty name up
in the table, 404 when it is no key. -/
theorem handlers_agree_on_nonempty_names (env : Env) (rg rp : Request) (body : GoString)
    (requestData : GoMap)
    (hbody : rp.body = .ok body) (hjson : env.jsonUnmarshal body = .ok requestData) :
    (rg.queryGet "area".toList ≠ [] →
      requestData.get? "area".toList = some (rg.queryGet "area".toList) →
      handleGet env rg = handlePost env rp) ∧
    (rg.queryGet "area".toList = [] →
      (requestData.get? "area".toList).getD [] = [] →
      handleGet env rg = (httpError "缺少查询参数: area".toList 400, []) ∧
      (handlePost env rp).2.head? = some (Effect.readFile "tqdm.txt".toList) ∧
      (handlePost env rp).1.status ≠ 400 ∧
      (∀ err, env.readFile "tqdm.txt".toList = .error err →
        (handlePost env rp).1.status = 500) ∧
      (∀ areaCodes, (readAreaCodes env "tqdm.txt".toList).1 = .ok areaCodes →
        (areaCodes.get? [] = none → (handlePost env rp).1.status = 404) ∧
        (∀ areaCode, areaCodes.get? [] = some areaCode →
          (handlePost env rp).2
            = [Effect.readFile "tqdm.txt".toList, Effect.httpGet (weatherURL areaCode)]))) := by
  constructor
  · intro hne harea
    cases hread : env.readFile "tqdm.txt".toList with
    | error err =>
      rw [handleGet_of_no_table env rg err hread hne, handlePost_of_no_table env rp err hread]
    | ok content =>
      rw [handleGet_of_table env rg content hread hne,
        handlePost_of_table env rp content body requestData hread hbody hjson, harea]
      rfl
  · intro hempty harea
    refine ⟨by unfold handleGet; simp only [hempty]; rfl, ?_⟩
    cases hread : env.readFile "tqdm.txt".toList with
    | error err =>
      rw [handlePost_of_no_table env rp err hread]
      refine ⟨rfl, by simp [httpError], fun _ _ => rfl, ?_⟩
      intro areaCodes h
      rw [readAreaCodes_error env _ err hread] at h
      exact absurd h (by simp)
    | ok content =>
      rw [handlePost_of_table env rp content body requestData hread hbody hjson, harea]
      refine ⟨lookupResponse_trace_head _ _ _ _, lookupResponse_status_ne_400 _ _ _ _,
        fun _ h => absurd h (by simp), ?_⟩
      · intro areaCodes h
        rw [readAreaCodes_ok env _ content hread] at h
        have hc : parseAreaCodes content = areaCodes := Except.ok.inj h
        subst hc
        constructor
        · intro hnone
          simp [lookupResponse, hnone, httpError]
        · intro areaCode hsome
          rw [lookupResponse_trace env _ _ [] areaCode hsome]
          rfl

/-- Witness of C10: `北京` by GET and by POST with the sample table and the
sample page. -/
theorem handlers_agree_on_nonempty_names_witness :
    handleGet (mkEnv (.ok sampleTable) (.document sampleTitle) sampleBody
        [("area".toList, "北京".toList)]) (getRequest "北京".toList)
      = handlePost (mkEnv (.ok sampleTable) (.document sampleTitle) sampleBody
        [("area".toList, "北京".toList)]) (postRequest sampleBody) ∧
    (handlePost (mkEnv (.ok sampleTable) (.document sampleTitle) sampleBody
        [("area".toList, "北京".toList)]) (postRequest sampleBody)).1.status = 200 :=
  ⟨(handlers_agree_on_nonempty_names
      (mkEnv (.ok sampleTable) (.document sampleTitle) sampleBody [("area".toList, "北京".toList)])
      (getRequest "北京".toList) (postRequest sampleBody) sampleBody
      [("area".toList, "北京".toList)] rfl (by decide)).1 (by decide) (by decide),
    by decide⟩

end GoWeather
